import Mathlib

/-! The file `cmd/commands/child.go` of cloud-mta-build-tool.

A shallow embedding of the command functions of `child.go` (`packModule`,
`convertTypes`, `generateMeta`, `processMta`, `generateMtar` and the `cleanup`
command) and the properties of them that the specification states.

The functions of `child.go` do their work through collaborators: the Go
standard library (`os.Getwd`, `os.MkdirAll`, `os.RemoveAll`, `filepath.Join`,
`errors.New`, `fmt.Sprintf`) and the packages `fsys`, `mta`, `platform` and
`logs` of the repository.  The collaborators are the fields of one record,
`Env`; every function of `child.go` is a Lean function of an `Env` and of the
state of the world (the filesystem and the list of calls made so far).  The
theorems about the calls `child.go` makes hold for every `Env`; those about
where a path lies take the `filepath.Join` of a Unix system.  `unixEnv` is one
concrete `Env`, an in-memory filesystem, on which the functions can be run.
-/

namespace MtaBuild

/-! ## Go values -/

/-- Modelled from the spec: the dynamic kind of a Go `error` value.  `errorString` is the
type of the values `errors.New` builds; `pathError` that of the errors of package `os`;
the others are the error kinds that section 7 of the spec gives the collaborators. -/
inductive ErrKind
  | errorString
  | pathError
  | notFound
  | malformedDescriptor
  | configUnavailable
  | writeFailure
  | archiveFailure
  | cleanupFailure
  deriving DecidableEq, Repr

/-- A non-nil Go `error`: its dynamic kind and the text `Error()` returns.  A Go
`error` that may be nil is an `Option GoError`. -/
structure GoError where
  kind : ErrKind
  msg : String
  deriving DecidableEq, Repr

/-- The call `errors.New(s)`. -/
def errorsNew (s : String) : GoError := ⟨ErrKind.errorString, s⟩

/-- The contents of a file, `[]byte`. -/
abbrev Bytes := List Nat

/-- Modelled from the spec: a module of the descriptor (`mta.Modules`, not in
`child.go`): its name, its build-output path and its type (the field `Type`). -/
structure Module where
  Name : String
  Path : String
  Typ : String
  deriving DecidableEq, Repr

/-- Modelled from the spec: a resource of the descriptor (`mta.Resources`, not in
`child.go`): its name and its type (the field `Type`). -/
structure Resource where
  Name : String
  Typ : String
  deriving DecidableEq, Repr

/-- Modelled from the spec: the parsed descriptor (`mta.MTA`, not in `child.go`, which
reads only the field `Id`): the id, the modules in order, the resources. -/
structure MTA where
  Id : String
  Modules : List Module
  Resources : List Resource
  deriving DecidableEq, Repr

/-- Modelled from the spec: one rule of the platform configuration (package `platform`,
not in `child.go`): a generic type name and the platform-specific name it becomes. -/
structure TypeRule where
  NativeType : String
  PlatformType : String
  deriving DecidableEq, Repr

/-- Modelled from the spec: the rules of one named platform. -/
structure Platform where
  Name : String
  Rules : List TypeRule
  deriving DecidableEq, Repr

/-- Modelled from the spec: the platform configuration `platform.Parse` returns, the rule
tables of the known platforms. -/
abbrev Platforms := List Platform

/-- What a name of the filesystem holds. -/
inductive Node
  | dir
  | file (content : Bytes)
  deriving DecidableEq, Repr

/-! ## The world -/

/-- A call that a function of `child.go` makes on a collaborator with an effect outside
the program: on the filesystem or on the log. -/
inductive Event
  | mkdirAll (path : String)
  | archive (src dst : String)
  | removeAll (path : String)
  | readExtFile (path filename : String)
  | genMetaInfo (target : String) (extra : List String)
  | logInfo (msg : String)
  | logError (msg : String)
  deriving DecidableEq, Repr

/-- The state of the world: the filesystem and the calls made so far, oldest first. -/
structure World (σ : Type) where
  fs : σ
  trace : List Event

/-- The collaborators of `child.go`, over a filesystem state `σ`. -/
structure Env (σ : Type) where
  /-- The value `string(os.PathSeparator)`. -/
  pathSep : String
  /-- The function `filepath.Join`. -/
  join : List String → String
  /-- The function `os.Getwd`; `child.go` drops its error. -/
  getwd : σ → String
  /-- The call `os.MkdirAll(path, os.ModePerm)`. -/
  mkdirAll : String → σ → Option GoError × σ
  /-- The function `os.RemoveAll`. -/
  removeAll : String → σ → Option GoError × σ
  /-- The function `fs.Archive(src, dst)` of package `fsys`. -/
  archive : String → String → σ → Option GoError × σ
  /-- The method `ReadExtFile` of `mta.Source`, given `Path` and `Filename`. -/
  readExtFile : String → String → σ → Except GoError Bytes
  /-- The function `mta.ParseToMta`. -/
  parseToMta : Bytes → Except GoError MTA
  /-- The function `mta.GenMetaInfo(target, mta, extra, transform)`. -/
  genMetaInfo : String → MTA → List String → (MTA → MTA) → σ → Option GoError × σ
  /-- The configuration `platform.Parse(platform.PlatformConfig)`. -/
  platformCfg : Platforms
  /-- What the filesystem holds under a name, if anything. -/
  stat : σ → String → Option Node
  /-- Whether the second path names the first or something beneath it. -/
  within : String → String → Bool

/-- How a Go function call ends: it returns its `error` (nil or not), or it panics. -/
inductive Outcome
  | ret (err : Option GoError)
  | panic
  deriving DecidableEq, Repr

/-- The calls made between a world `w` and a later world `w1`. -/
def callsSince {σ : Type} (w w1 : World σ) : List Event :=
  w1.trace.drop w.trace.length

/-- The arguments of the calls of `fs.Archive` in a trace, in order. -/
def archiveCalls : List Event → List (String × String)
  | [] => []
  | Event.archive src dst :: evs => (src, dst) :: archiveCalls evs
  | _ :: evs => archiveCalls evs

/-- The arguments of the calls of `os.RemoveAll` in a trace, in order. -/
def removeCalls : List Event → List String
  | [] => []
  | Event.removeAll p :: evs => p :: removeCalls evs
  | _ :: evs => removeCalls evs

/-- The arguments of the calls of `os.MkdirAll` in a trace, in order. -/
def mkdirCalls : List Event → List String
  | [] => []
  | Event.mkdirAll p :: evs => p :: mkdirCalls evs
  | _ :: evs => mkdirCalls evs

/-- The messages logged as errors in a trace, in order. -/
def errorLogs : List Event → List String
  | [] => []
  | Event.logError m :: evs => m :: errorLogs evs
  | _ :: evs => errorLogs evs

/-! ## `child.go` -/

/-- The constant `dataZip = pathSep + "data.zip"`. -/
def dataZip {σ : Type} (env : Env σ) : String := env.pathSep ++ "data.zip"

/-- The constant `mtarSuffix`. -/
def mtarSuffix : String := ".mtar"

/-- The text of `fmt.Sprintf("Error occurred during ZIP module %v creation, error: %s  ",
mNameProp, err)`. -/
def zipErrorMsg (mNameProp : String) (err : GoError) : String :=
  "Error occurred during ZIP module " ++ mNameProp ++ " creation, error: " ++ err.msg ++ "  "

/-- The text of `fmt.Sprintf("Error occured during directory %s removal failed %s. %s",
tDir, err, err1)`. -/
def removalErrorMsg (tDir : String) (err err1 : GoError) : String :=
  "Error occured during directory " ++ tDir ++ " removal failed " ++ err.msg ++ ". " ++ err1.msg

/-- The function `packModule(tDir, mPathProp, mNameProp)`, from a world `w`: the error it
returns and the world it leaves. -/
def packModule {σ : Type} (env : Env σ) (tDir mPathProp mNameProp : String) (w : World σ) :
    Option GoError × World σ :=
  let ws := env.getwd w.fs
  let mp := env.join [ws, mPathProp]
  let mrp := env.join [tDir, mNameProp]
  match env.mkdirAll mrp w.fs with
  | (some err, s1) =>
    (some err, ⟨s1, w.trace ++ [Event.mkdirAll mrp, Event.logError err.msg]⟩)
  | (none, s1) =>
    let tr1 := w.trace ++ [Event.mkdirAll mrp,
      Event.logInfo ("Starting execute zipping module " ++ mNameProp ++ " "),
      Event.archive mp (mrp ++ dataZip env)]
    match env.archive mp (mrp ++ dataZip env) s1 with
    | (some a, s2) =>
      let err := errorsNew (zipErrorMsg mNameProp a)
      match env.removeAll tDir s2 with
      | (some err1, s3) =>
        (some (errorsNew (removalErrorMsg tDir err err1)), ⟨s3, tr1 ++ [Event.removeAll tDir]⟩)
      | (none, s3) => (some err, ⟨s3, tr1 ++ [Event.removeAll tDir]⟩)
    | (none, s2) =>
      (none, ⟨s2, tr1 ++
        [Event.logInfo ("Execute zipping module " ++ mNameProp ++ " finished successfully ")]⟩)

/-- Modelled from the spec: the platform-specific name that a rule table gives a type
name: that of the first rule for the name, and the name itself when no rule is for it. -/
def convertType (rules : List TypeRule) (t : String) : String :=
  match rules.find? (fun r => decide (r.NativeType = t)) with
  | some r => r.PlatformType
  | none => t

/-- Modelled from the spec: the function `platform.ConvertTypes(mta, cfg, targetPlatform)`
(package `platform`, not in `child.go`): it rewrites the type of every module and of every
resource of the descriptor by the rules of the platform called `targetPlatform`.  Go
changes the descriptor in place; here the changed descriptor is the result. -/
def platformConvertTypes (m : MTA) (cfg : Platforms) (targetPlatform : String) : MTA :=
  match cfg.find? (fun p => decide (p.Name = targetPlatform)) with
  | none => m
  | some p =>
    ⟨m.Id, m.Modules.map (fun md => ⟨md.Name, md.Path, convertType p.Rules md.Typ⟩),
      m.Resources.map (fun r => ⟨r.Name, convertType p.Rules r.Typ⟩)⟩

/-- The function `convertTypes(mtaStr)`: the descriptor as it is after the call. -/
def convertTypes {σ : Type} (env : Env σ) (mtaStr : MTA) : MTA :=
  platformConvertTypes mtaStr env.platformCfg "cf"

/-- The function `processMta(processName, relPath, args, process)`. -/
def processMta {σ : Type} (env : Env σ) (processName relPath : String) (args : List String)
    (process : Bytes → List String → World σ → Outcome × World σ) (w : World σ) :
    Outcome × World σ :=
  let w0 : World σ := ⟨w.fs, w.trace ++
    [Event.logInfo ("Starting " ++ processName), Event.readExtFile relPath "mta.yaml"]⟩
  match env.readExtFile relPath "mta.yaml" w.fs with
  | Except.ok mf =>
    match process mf args w0 with
    | (Outcome.ret none, w1) =>
      (Outcome.ret none,
        ⟨w1.fs, w1.trace ++ [Event.logInfo (processName ++ " finish successfully ")]⟩)
    | (r, w1) => (r, w1)
  | Except.error err =>
    (Outcome.ret (some (errorsNew ("MTA file not found: " ++ err.msg))), w0)

/-- The function literal that `generateMeta` hands to `processMta`. -/
def generateMetaProcess {σ : Type} (env : Env σ) (file : Bytes) (args : List String)
    (w : World σ) : Outcome × World σ :=
  match env.parseToMta file with
  | Except.error err => (Outcome.ret (some err), w)
  | Except.ok m =>
    match args with
    | [] => (Outcome.panic, w)
    | a0 :: rest =>
      ((Outcome.ret (env.genMetaInfo a0 m rest (convertTypes env) w.fs).1),
        ⟨(env.genMetaInfo a0 m rest (convertTypes env) w.fs).2,
          w.trace ++ [Event.genMetaInfo a0 rest]⟩)

/-- The function `generateMeta(relPath, args)`. -/
def generateMeta {σ : Type} (env : Env σ) (relPath : String) (args : List String)
    (w : World σ) : Outcome × World σ :=
  processMta env "Metadata creation" relPath args (generateMetaProcess env) w

/-- The function literal that `generateMtar` hands to `processMta`.  Indexing `args[0]`
and `args[1]` panics when the list is too short. -/
def generateMtarProcess {σ : Type} (env : Env σ) (file : Bytes) (args : List String)
    (w : World σ) : Outcome × World σ :=
  match env.parseToMta file with
  | Except.error err => (Outcome.ret (some err), w)
  | Except.ok m =>
    match args with
    | a0 :: a1 :: _ =>
      ((Outcome.ret (env.archive (env.join [a0]) (env.join [a1, m.Id ++ mtarSuffix]) w.fs).1),
        ⟨(env.archive (env.join [a0]) (env.join [a1, m.Id ++ mtarSuffix]) w.fs).2,
          w.trace ++ [Event.archive (env.join [a0]) (env.join [a1, m.Id ++ mtarSuffix])]⟩)
    | _ => (Outcome.panic, w)

/-- The function `generateMtar(relPath, args)`. -/
def generateMtar {σ : Type} (env : Env σ) (relPath : String) (args : List String)
    (w : World σ) : Outcome × World σ :=
  processMta env "MTAR generation" relPath args (generateMtarProcess env) w

/-- The `Run` function of the command `cleanup`.  It returns nothing, which is
`Outcome.ret none` here; what it reports, it logs.  Indexing `args[0]` panics on an
empty list. -/
def cleanup {σ : Type} (env : Env σ) (args : List String) (w : World σ) :
    Outcome × World σ :=
  match args with
  | [] => (Outcome.panic, ⟨w.fs, w.trace ++ [Event.logInfo "Starting Cleanup process"]⟩)
  | a0 :: _ =>
    match env.removeAll a0 w.fs with
    | (some err, s1) =>
      (Outcome.ret none, ⟨s1, w.trace ++ [Event.logInfo "Starting Cleanup process",
        Event.removeAll a0, Event.logError err.msg]⟩)
    | (none, s1) =>
      (Outcome.ret none, ⟨s1, w.trace ++ [Event.logInfo "Starting Cleanup process",
        Event.removeAll a0, Event.logInfo "Done"]⟩)

/-! ## What the collaborators promise -/

/-- The contract of `os.RemoveAll` ("RemoveAll removes path and any children it contains
... If the path does not exist, RemoveAll returns nil"): on a path with nothing at or
beneath it, it returns nil and changes nothing; when it returns nil, nothing is left at
or beneath the path; and whatever it returns, it touches nothing outside the path. -/
structure RemoveAllContract {σ : Type} (env : Env σ) : Prop where
  absent : ∀ (s : σ) (p : String),
    (∀ q, env.within p q = true → env.stat s q = none) → env.removeAll p s = (none, s)
  removed : ∀ (s s1 : σ) (p : String), env.removeAll p s = (none, s1) →
    ∀ q, env.within p q = true → env.stat s1 q = none
  frame : ∀ (s s1 : σ) (p : String) (r : Option GoError), env.removeAll p s = (r, s1) →
    ∀ q, env.within p q = false → env.stat s1 q = env.stat s q

/-- The text `x` occurs in the text `s`. -/
def Contains (s x : String) : Prop := ∃ u v : String, s = u ++ x ++ v

/-! ## A concrete environment: an in-memory filesystem with Unix paths -/

/-- The elements of a path between its separators, an empty one at each end of the path
that a separator ends or starts. -/
def splitPath : List Char → List (List Char)
  | [] => [[]]
  | c :: cs =>
    if c = '/' then [] :: splitPath cs
    else
      match splitPath cs with
      | [] => [[c]]
      | x :: xs => (c :: x) :: xs

/-- One step of `filepath.Clean`, on the elements kept so far, last first: an empty element
and `.` are dropped; `..` removes the element before it, is dropped at the root, and is
kept at the start of a path that is not rooted. -/
def cleanStep (rooted : Bool) (acc : List String) (c : String) : List String :=
  if c = "" ∨ c = "." then acc
  else if c = ".." then
    match acc with
    | [] => if rooted then [] else [".."]
    | top :: rest => if top = ".." then c :: acc else rest
  else c :: acc

/-- Whether a path starts at the root. -/
def isRooted (p : String) : Bool :=
  match p.data with
  | c :: _ => decide (c = '/')
  | [] => false

/-- The elements of the path `filepath.Clean(p)`. -/
def cleanElems (p : String) : List String :=
  (((splitPath p.data).map String.mk).foldl (cleanStep (isRooted p)) []).reverse

/-- The function `filepath.Clean` of a Unix system. -/
def filepathClean (p : String) : String :=
  if isRooted p then "/" ++ "/".intercalate (cleanElems p)
  else if cleanElems p = [] then "." else "/".intercalate (cleanElems p)

/-- The function `filepath.Join` of a Unix system: the elements from the first non-empty
one on, joined by separators and cleaned; the empty path when all are empty. -/
def filepathJoin : List String → String
  | [] => ""
  | e :: es => if e = "" then filepathJoin es else filepathClean ("/".intercalate (e :: es))

/-- A name that is one element of a path: not empty, not `.` or `..`, without a
separator. -/
def PlainName (n : String) : Prop :=
  n ≠ "" ∧ n ≠ "." ∧ n ≠ ".." ∧ '/' ∉ n.data

/-- An element that `filepath.Clean` keeps as it is. -/
def PlainElem (c : String) : Prop := c ≠ "" ∧ c ≠ "." ∧ c ≠ ".."

/-- No element is empty or `.`. -/
def NoDots (acc : List String) : Prop := ∀ x ∈ acc, x ≠ "" ∧ x ≠ "."

/-- The characters that follow the first element of a joined path: a separator and the
characters of each further element. -/
def sepData : List String → List Char
  | [] => []
  | b :: bs => '/' :: (b.data ++ sepData bs)

/-- An in-memory filesystem: what each name holds, and the names that may not be removed
(the removal is denied). -/
structure MemFS where
  entries : List (String × Node)
  locked : List String
  deriving DecidableEq, Repr

/-- The elements of a path from the root, a relative path taken from the working
directory `cwd`. -/
def resolve (cwd p : String) : List String :=
  cleanElems (if isRooted p then p else cwd ++ "/" ++ p)

/-- Two paths name the same place.  The empty path names no place. -/
def samePath (cwd a b : String) : Bool :=
  !(decide (a = "")) && !(decide (b = "")) && decide (resolve cwd a = resolve cwd b)

/-- The path `q` names the place `p` names, or one beneath it.  The empty path names no
place. -/
def unixWithin (cwd p q : String) : Bool :=
  !(decide (p = "")) && !(decide (q = "")) && (resolve cwd p).isPrefixOf (resolve cwd q)

/-- What the filesystem holds at a path. -/
def unixStat (cwd : String) (s : MemFS) (q : String) : Option Node :=
  (s.entries.find? (fun e => samePath cwd e.1 q)).map Prod.snd

/-- The rooted path of a list of elements. -/
def pathOf (elems : List String) : String := "/" ++ "/".intercalate elems

/-- The directories `os.MkdirAll` needs on the way to a path: the path and each of its
ancestors below the root, outermost first. -/
def dirsTo (cwd p : String) : List String := ((resolve cwd p).inits.tail).map pathOf

/-- The function `os.MkdirAll`: it fails on the empty path, and when the path or an ancestor
of it is a file; otherwise it creates the directories on the way that do not exist. -/
def unixMkdirAll (cwd p : String) (s : MemFS) : Option GoError × MemFS :=
  if p = "" then
    (some ⟨ErrKind.pathError, "mkdir : no such file or directory"⟩, s)
  else if (dirsTo cwd p).any (fun d =>
      match unixStat cwd s d with
      | some (Node.file _) => true
      | _ => false) then
    (some ⟨ErrKind.pathError, "mkdir " ++ p ++ ": not a directory"⟩, s)
  else
    (none, ⟨s.entries ++
      ((dirsTo cwd p).filter (fun d => (unixStat cwd s d).isNone)).map (fun d => (d, Node.dir)),
      s.locked⟩)

/-- The removal of a path that is not empty: what can be removed of the path and of what
is beneath it is removed, which is everything but the locked names and the directories
that hold one; the removal fails when something is left. -/
def removeTree (cwd p : String) (s : MemFS) : Option GoError × MemFS :=
  if (s.entries.filter (fun e =>
        !(unixWithin cwd p e.1) || s.locked.any (fun l => unixWithin cwd e.1 l))).any
      (fun e => unixWithin cwd p e.1) then
    (some ⟨ErrKind.pathError, "unlinkat " ++ p ++ ": permission denied"⟩,
      ⟨s.entries.filter (fun e =>
        !(unixWithin cwd p e.1) || s.locked.any (fun l => unixWithin cwd e.1 l)), s.locked⟩)
  else
    (none, ⟨s.entries.filter (fun e =>
        !(unixWithin cwd p e.1) || s.locked.any (fun l => unixWithin cwd e.1 l)), s.locked⟩)

/-- The function `os.RemoveAll`: on the empty path it returns nil and removes nothing; on
another path it removes the path and what is beneath it. -/
def unixRemoveAll (cwd p : String) (s : MemFS) : Option GoError × MemFS :=
  if p = "" then (none, s) else removeTree cwd p s

/-- The bytes of the files at and beneath a path, in the order of the entries. -/
def treeBytes (cwd src : String) : List (String × Node) → Bytes
  | [] => []
  | (name, Node.file c) :: es =>
    if unixWithin cwd src name then c ++ treeBytes cwd src es else treeBytes cwd src es
  | (_, Node.dir) :: es => treeBytes cwd src es

/-- Modelled from the spec: the function `fs.Archive(src, dst)` (package `fsys`, not in
`child.go`): it "compresses `sourcePath` (file or directory) into `destinationFile`" and
fails "if the source tree is missing/unreadable or the archive cannot be written".  The
archive written holds the bytes of the files of the source, uncompressed. -/
def unixArchive (cwd src dst : String) (s : MemFS) : Option GoError × MemFS :=
  match unixStat cwd s src with
  | none =>
    (some ⟨ErrKind.archiveFailure, "lstat " ++ src ++ ": no such file or directory"⟩, s)
  | some _ =>
    match unixStat cwd s (pathOf (resolve cwd dst).dropLast) with
    | some Node.dir =>
      (none, ⟨s.entries.filter (fun e => !(samePath cwd e.1 dst)) ++
        [(pathOf (resolve cwd dst), Node.file (treeBytes cwd src s.entries))], s.locked⟩)
    | _ =>
      (some ⟨ErrKind.archiveFailure, "open " ++ dst ++ ": no such file or directory"⟩, s)

/-- Modelled from the spec: the method `ReadExtFile` of `mta.Source` (package `mta`, not
in `child.go`): it "reads the named file relative to directory" and "fails with
`NotFound` when the file does not exist or is unreadable". -/
def unixReadExtFile (cwd path filename : String) (s : MemFS) : Except GoError Bytes :=
  match unixStat cwd s (filepathJoin [path, filename]) with
  | some (Node.file c) => Except.ok c
  | some Node.dir =>
    Except.error ⟨ErrKind.notFound,
      "read " ++ filepathJoin [path, filename] ++ ": is a directory"⟩
  | none =>
    Except.error ⟨ErrKind.notFound,
      "open " ++ filepathJoin [path, filename] ++ ": no such file or directory"⟩

/-- The lines of a file, split at the byte 10. -/
def splitLines : Bytes → List Bytes
  | [] => [[]]
  | c :: cs =>
    if c = 10 then [] :: splitLines cs
    else
      match splitLines cs with
      | [] => [[c]]
      | x :: xs => (c :: x) :: xs

/-- The text after the key `id: ` on a line that starts with it. -/
def idOfLine (line : Bytes) : Option String :=
  if [105, 100, 58, 32].isPrefixOf line then
    some (String.mk ((line.drop 4).map Char.ofNat))
  else none

/-- Modelled from the spec: the function `mta.ParseToMta` (package `mta`, not in
`child.go`; its grammar is outside the spec): it "fails with `MalformedDescriptor` on
structural violations", here a tab, which YAML does not allow; otherwise it gives the
descriptor.  This stand-in reads the `id: ` line alone, and as YAML decoding does, it
leaves empty the id of a file that has none. -/
def parseDescriptor (file : Bytes) : Except GoError MTA :=
  if 9 ∈ file then
    Except.error ⟨ErrKind.malformedDescriptor,
      "yaml: found character that cannot start any token"⟩
  else
    Except.ok ⟨((splitLines file).findSome? idOfLine).getD "", [], []⟩

/-- The bytes of a text. -/
def bytesOf (text : String) : Bytes := text.data.map Char.toNat

/-- Modelled from the spec: the function `mta.GenMetaInfo` (package `mta`, not in
`child.go`): it "applies `transform` to the descriptor then materializes a metadata
directory under `targetDir`", here the directory `META-INF` with the file `mtad.yaml`
that holds the id and the module types of the transformed descriptor. -/
def unixGenMetaInfo (cwd target : String) (m : MTA) (_extra : List String)
    (transform : MTA → MTA) (s : MemFS) : Option GoError × MemFS :=
  match unixMkdirAll cwd (filepathJoin [target, "META-INF"]) s with
  | (some e, s1) => (some ⟨ErrKind.writeFailure, e.msg⟩, s1)
  | (none, s1) =>
    (none, ⟨s1.entries.filter
        (fun e => !(samePath cwd e.1 (filepathJoin [target, "META-INF", "mtad.yaml"]))) ++
      [(pathOf (resolve cwd (filepathJoin [target, "META-INF", "mtad.yaml"])),
        Node.file (bytesOf ("ID: " ++ (transform m).Id ++ "\n" ++
          "\n".intercalate ((transform m).Modules.map (fun md => md.Typ)))))], s1.locked⟩)

/-- The concrete environment: a Unix system whose working directory is `cwd`, with the
platform configuration `cfg`. -/
def unixEnv (cwd : String) (cfg : Platforms) : Env MemFS where
  pathSep := "/"
  join := filepathJoin
  getwd := fun _ => cwd
  mkdirAll := unixMkdirAll cwd
  removeAll := unixRemoveAll cwd
  archive := unixArchive cwd
  readExtFile := unixReadExtFile cwd
  parseToMta := parseDescriptor
  genMetaInfo := unixGenMetaInfo cwd
  platformCfg := cfg
  stat := unixStat cwd
  within := unixWithin cwd

/-- A build in progress in `/work`, without its descriptor: the build output of the
modules `mod1` and `mod2` (that of `mod3` is missing), the folders of the two modules as
packaged before, and the output directory `dist`. -/
def buildEntries : List (String × Node) :=
  [("/work", Node.dir),
    ("/work/build", Node.dir),
    ("/work/build/out1", Node.dir),
    ("/work/build/out1/app.js", Node.file [1, 2, 3]),
    ("/work/build/out2", Node.dir),
    ("/work/build/out2/app.js", Node.file [4, 5]),
    ("/work/out", Node.dir),
    ("/work/out/mod1", Node.dir),
    ("/work/out/mod1/data.zip", Node.file [1, 2, 3]),
    ("/work/out/mod2", Node.dir),
    ("/work/out/mod2/data.zip", Node.file [4, 5]),
    ("/work/dist", Node.dir)]

/-- The build in progress with the descriptor file `mta.yaml` of the given text. -/
def descriptorState (text : String) : MemFS :=
  ⟨("/work/mta.yaml", Node.file (bytesOf text)) :: buildEntries, []⟩

/-- The build in progress of the application `myapp`. -/
def buildState : MemFS := descriptorState "id: myapp\nmodules:\n"

/-- The build in progress of `myapp` with the given names locked against removal. -/
def lockedState (names : List String) : MemFS := ⟨buildState.entries, names⟩

/-- The platform configuration of the examples. -/
def cfConfig : Platforms :=
  [⟨"cf", [⟨"html5", "javascript.nodejs"⟩, ⟨"nodejs", "javascript.nodejs"⟩,
    ⟨"java", "java.tomcat"⟩]⟩]

/-- The concrete environment of the examples. -/
def workEnv : Env MemFS := unixEnv "/work" cfConfig

/-- The world of the examples: the build in progress of `myapp`, no call made yet. -/
def buildWorld : World MemFS := ⟨buildState, []⟩

/-- What `fs.Archive` returns in the examples for the missing build output of `mod3`. -/
def noOutput3 : GoError :=
  ⟨ErrKind.archiveFailure, "lstat /work/build/out3: no such file or directory"⟩

/-- What `os.RemoveAll` returns in the examples when a locked name stops it. -/
def denied : GoError := ⟨ErrKind.pathError, "unlinkat out: permission denied"⟩

/-- A callback for `processMta` whose parser rejects every descriptor with an `errors.New`
error that has the text `processMta` gives a descriptor that cannot be read. -/
def rejectingProcess (_file : Bytes) (_args : List String) (w : World MemFS) :
    Outcome × World MemFS :=
  (Outcome.ret (some (errorsNew
    "MTA file not found: open mta.yaml: no such file or directory")), w)

/-! ## Lemmas -/

theorem callsSince_append {σ : Type} (w : World σ) (s : σ) (evs : List Event) :
    callsSince w ⟨s, w.trace ++ evs⟩ = evs := by
  simp [callsSince]

theorem callsSince_append_append {σ : Type} (w : World σ) (s : σ) (evs evs1 : List Event) :
    callsSince w ⟨s, w.trace ++ evs ++ evs1⟩ = evs ++ evs1 := by
  simp [callsSince, List.append_assoc]

/-! ## `packModule` -/

theorem packModule_mkdir_error {σ : Type} (env : Env σ) (t p n : String) (w : World σ)
    (e : GoError) (s1 : σ) (hm : env.mkdirAll (env.join [t, n]) w.fs = (some e, s1)) :
    packModule env t p n w
      = (some e,
          ⟨s1, w.trace ++ [Event.mkdirAll (env.join [t, n]), Event.logError e.msg]⟩) := by
  simp only [packModule, hm]

theorem packModule_archive_ok {σ : Type} (env : Env σ) (t p n : String) (w : World σ)
    (s1 s2 : σ) (hm : env.mkdirAll (env.join [t, n]) w.fs = (none, s1))
    (ha : env.archive (env.join [env.getwd w.fs, p]) (env.join [t, n] ++ dataZip env) s1
      = (none, s2)) :
    packModule env t p n w
      = (none, ⟨s2, w.trace ++ [Event.mkdirAll (env.join [t, n]),
          Event.logInfo ("Starting execute zipping module " ++ n ++ " "),
          Event.archive (env.join [env.getwd w.fs, p]) (env.join [t, n] ++ dataZip env)] ++
          [Event.logInfo ("Execute zipping module " ++ n ++ " finished successfully ")]⟩) := by
  simp only [packModule, hm, ha]

theorem packModule_removal_ok {σ : Type} (env : Env σ) (t p n : String) (w : World σ)
    (a : GoError) (s1 s2 s3 : σ) (hm : env.mkdirAll (env.join [t, n]) w.fs = (none, s1))
    (ha : env.archive (env.join [env.getwd w.fs, p]) (env.join [t, n] ++ dataZip env) s1
      = (some a, s2))
    (hr : env.removeAll t s2 = (none, s3)) :
    packModule env t p n w
      = (some (errorsNew (zipErrorMsg n a)), ⟨s3, w.trace ++ [Event.mkdirAll (env.join [t, n]),
          Event.logInfo ("Starting execute zipping module " ++ n ++ " "),
          Event.archive (env.join [env.getwd w.fs, p]) (env.join [t, n] ++ dataZip env)] ++
          [Event.removeAll t]⟩) := by
  simp only [packModule, hm, ha, hr]

theorem packModule_removal_error {σ : Type} (env : Env σ) (t p n : String) (w : World σ)
    (a r : GoError) (s1 s2 s3 : σ) (hm : env.mkdirAll (env.join [t, n]) w.fs = (none, s1))
    (ha : env.archive (env.join [env.getwd w.fs, p]) (env.join [t, n] ++ dataZip env) s1
      = (some a, s2))
    (hr : env.removeAll t s2 = (some r, s3)) :
    packModule env t p n w
      = (some (errorsNew (removalErrorMsg t (errorsNew (zipErrorMsg n a)) r)),
          ⟨s3, w.trace ++ [Event.mkdirAll (env.join [t, n]),
          Event.logInfo ("Starting execute zipping module " ++ n ++ " "),
          Event.archive (env.join [env.getwd w.fs, p]) (env.join [t, n] ++ dataZip env)] ++
          [Event.removeAll t]⟩) := by
  simp only [packModule, hm, ha, hr]

theorem packModule_calls {σ : Type} (env : Env σ) (t p n : String) (w : World σ) :
    mkdirCalls (callsSince w (packModule env t p n w).2) = [env.join [t, n]]
    ∧ archiveCalls (callsSince w (packModule env t p n w).2)
      = (if (env.mkdirAll (env.join [t, n]) w.fs).1 = none
          then [(env.join [env.getwd w.fs, p], env.join [t, n] ++ (env.pathSep ++ "data.zip"))]
          else []) := by
  rcases hm : env.mkdirAll (env.join [t, n]) w.fs with ⟨_ | e, s1⟩
  · rcases ha : env.archive (env.join [env.getwd w.fs, p])
      (env.join [t, n] ++ dataZip env) s1 with ⟨_ | a, s2⟩
    · rw [packModule_archive_ok env t p n w s1 s2 hm ha, callsSince_append_append]
      simp [mkdirCalls, archiveCalls, dataZip]
    · rcases hr : env.removeAll t s2 with ⟨_ | r, s3⟩
      · rw [packModule_removal_ok env t p n w a s1 s2 s3 hm ha hr, callsSince_append_append]
        simp [mkdirCalls, archiveCalls, dataZip]
      · rw [packModule_removal_error env t p n w a r s1 s2 s3 hm ha hr,
          callsSince_append_append]
        simp [mkdirCalls, archiveCalls, dataZip]
  · rw [packModule_mkdir_error env t p n w e s1 hm, callsSince_append]
    simp [mkdirCalls, archiveCalls]

/-- When `os.MkdirAll` succeeds and `fs.Archive` fails, `packModule(t, p, n)` makes exactly
one removal call, `os.RemoveAll(t)` on the whole build-artifacts directory, and returns a
non-nil error; and when that removal returns nil, under the contract of `os.RemoveAll`
nothing at or beneath `t` is left in the filesystem `packModule` leaves. -/
theorem packModule_rollback_removes_tree {σ : Type} (env : Env σ) (hc : RemoveAllContract env)
    (t p n : String) (w : World σ) (a : GoError) (s1 s2 : σ)
    (hm : env.mkdirAll (env.join [t, n]) w.fs = (none, s1))
    (ha : env.archive (env.join [env.getwd w.fs, p]) (env.join [t, n] ++ dataZip env) s1
      = (some a, s2)) :
    removeCalls (callsSince w (packModule env t p n w).2) = [t]
    ∧ (packModule env t p n w).1 ≠ none
    ∧ ((env.removeAll t s2).1 = none →
        (packModule env t p n w).2.fs = (env.removeAll t s2).2
        ∧ ∀ q : String, env.within t q = true →
            env.stat (packModule env t p n w).2.fs q = none) := by
  rcases hr : env.removeAll t s2 with ⟨_ | r, s3⟩
  · rw [packModule_removal_ok env t p n w a s1 s2 s3 hm ha hr, callsSince_append_append]
    refine ⟨by simp [removeCalls], by simp, fun _ => ⟨rfl, fun q hq => ?_⟩⟩
    exact hc.removed s2 s3 t hr q hq
  · rw [packModule_removal_error env t p n w a r s1 s2 s3 hm ha hr, callsSince_append_append]
    exact ⟨by simp [removeCalls], by simp, fun h => by simp at h⟩

/-- C3: when `fs.Archive` fails with `a` and the rollback `os.RemoveAll(t)` fails with `r`,
the error `packModule` returns has a message that contains the module name, the message
of `a`, the message of `r`, and the whole message of the archiving error that is returned
when the removal succeeds. -/
theorem packModule_error_keeps_both {σ : Type} (env : Env σ) (t p n : String) (w : World σ)
    (a r : GoError) (s1 s2 s3 : σ)
    (hm : env.mkdirAll (env.join [t, n]) w.fs = (none, s1))
    (ha : env.archive (env.join [env.getwd w.fs, p]) (env.join [t, n] ++ dataZip env) s1
      = (some a, s2))
    (hr : env.removeAll t s2 = (some r, s3)) :
    ∃ e : GoError, (packModule env t p n w).1 = some e
      ∧ Contains e.msg n ∧ Contains e.msg a.msg ∧ Contains e.msg r.msg
      ∧ Contains e.msg (zipErrorMsg n a) := by
  rw [packModule_removal_error env t p n w a r s1 s2 s3 hm ha hr]
  refine ⟨_, rfl, ?_, ?_, ?_, ?_⟩
  · exact ⟨"Error occured during directory " ++ t ++ " removal failed "
      ++ "Error occurred during ZIP module ",
      " creation, error: " ++ a.msg ++ "  " ++ ". " ++ r.msg,
      by simp only [errorsNew, removalErrorMsg, zipErrorMsg, String.append_assoc,
        String.append_empty]⟩
  · exact ⟨"Error occured during directory " ++ t ++ " removal failed "
      ++ "Error occurred during ZIP module " ++ n ++ " creation, error: ",
      "  " ++ ". " ++ r.msg,
      by simp only [errorsNew, removalErrorMsg, zipErrorMsg, String.append_assoc,
        String.append_empty]⟩
  · exact ⟨"Error occured during directory " ++ t ++ " removal failed "
      ++ zipErrorMsg n a ++ ". ", "",
      by simp only [errorsNew, removalErrorMsg, zipErrorMsg, String.append_assoc,
        String.append_empty]⟩
  · exact ⟨"Error occured during directory " ++ t ++ " removal failed ", ". " ++ r.msg,
      by simp only [errorsNew, removalErrorMsg, zipErrorMsg, String.append_assoc,
        String.append_empty]⟩

/-- C4: when `os.MkdirAll` fails with `e`, `packModule` returns exactly `e`, calls neither
`fs.Archive` nor `os.RemoveAll`, and leaves the filesystem as `os.MkdirAll` left it. -/
theorem packModule_creation_failure {σ : Type} (env : Env σ) (t p n : String) (w : World σ)
    (e : GoError) (s1 : σ) (hm : env.mkdirAll (env.join [t, n]) w.fs = (some e, s1)) :
    (packModule env t p n w).1 = some e
    ∧ archiveCalls (callsSince w (packModule env t p n w).2) = []
    ∧ removeCalls (callsSince w (packModule env t p n w).2) = []
    ∧ (packModule env t p n w).2.fs = s1 := by
  rw [packModule_mkdir_error env t p n w e s1 hm, callsSince_append]
  simp [archiveCalls, removeCalls]

/-- C5: `packModule` returns nil exactly when `os.MkdirAll` and then `fs.Archive` both
return nil; and then it has called `os.RemoveAll` not at all, `os.MkdirAll` once on the
destination folder and `fs.Archive` once on `data.zip` in it, and the filesystem it leaves
is the one these two calls made. -/
theorem packModule_nil_iff {σ : Type} (env : Env σ) (t p n : String) (w : World σ) :
    ((packModule env t p n w).1 = none ↔
      (env.mkdirAll (env.join [t, n]) w.fs).1 = none
      ∧ (env.archive (env.join [env.getwd w.fs, p]) (env.join [t, n] ++ dataZip env)
          (env.mkdirAll (env.join [t, n]) w.fs).2).1 = none)
    ∧ ((packModule env t p n w).1 = none →
        removeCalls (callsSince w (packModule env t p n w).2) = []
        ∧ mkdirCalls (callsSince w (packModule env t p n w).2) = [env.join [t, n]]
        ∧ archiveCalls (callsSince w (packModule env t p n w).2)
            = [(env.join [env.getwd w.fs, p], env.join [t, n] ++ dataZip env)]
        ∧ (packModule env t p n w).2.fs
            = (env.archive (env.join [env.getwd w.fs, p]) (env.join [t, n] ++ dataZip env)
                (env.mkdirAll (env.join [t, n]) w.fs).2).2) := by
  rcases hm : env.mkdirAll (env.join [t, n]) w.fs with ⟨_ | e, s1⟩
  · rcases ha : env.archive (env.join [env.getwd w.fs, p])
      (env.join [t, n] ++ dataZip env) s1 with ⟨_ | a, s2⟩
    · rw [packModule_archive_ok env t p n w s1 s2 hm ha, callsSince_append_append]
      simp [ha, mkdirCalls, archiveCalls, removeCalls]
    · rcases hr : env.removeAll t s2 with ⟨_ | r, s3⟩
      · rw [packModule_removal_ok env t p n w a s1 s2 s3 hm ha hr]
        simp [ha]
      · rw [packModule_removal_error env t p n w a r s1 s2 s3 hm ha hr]
        simp [ha]
  · rw [packModule_mkdir_error env t p n w e s1 hm]
    simp

/-! ## `processMta`, `generateMtar`, `generateMeta` -/

theorem processMta_read_error {σ : Type} (env : Env σ) (name relPath : String)
    (args : List String) (process : Bytes → List String → World σ → Outcome × World σ)
    (w : World σ) (e : GoError)
    (hmiss : env.readExtFile relPath "mta.yaml" w.fs = Except.error e) :
    processMta env name relPath args process w
      = (Outcome.ret (some (errorsNew ("MTA file not found: " ++ e.msg))),
          ⟨w.fs, w.trace ++ [Event.logInfo ("Starting " ++ name),
            Event.readExtFile relPath "mta.yaml"]⟩) := by
  simp only [processMta, hmiss]

theorem processMta_process_error {σ : Type} (env : Env σ) (name relPath : String)
    (args : List String) (process : Bytes → List String → World σ → Outcome × World σ)
    (w : World σ) (file : Bytes) (pe : GoError)
    (hread : env.readExtFile relPath "mta.yaml" w.fs = Except.ok file)
    (hproc : (process file args ⟨w.fs, w.trace ++ [Event.logInfo ("Starting " ++ name),
      Event.readExtFile relPath "mta.yaml"]⟩).1 = Outcome.ret (some pe)) :
    (processMta env name relPath args process w).1 = Outcome.ret (some pe) := by
  simp only [processMta, hread]
  split
  · next h => rw [h] at hproc; simp at hproc
  · next h => rw [h] at hproc; exact hproc

theorem generateMtar_parsed {σ : Type} (env : Env σ) (relPath b o : String)
    (rest : List String) (w : World σ) (file : Bytes) (m : MTA)
    (hread : env.readExtFile relPath "mta.yaml" w.fs = Except.ok file)
    (hparse : env.parseToMta file = Except.ok m) :
    (generateMtar env relPath (b :: o :: rest) w).1
      = Outcome.ret (env.archive (env.join [b]) (env.join [o, m.Id ++ mtarSuffix]) w.fs).1
    ∧ (generateMtar env relPath (b :: o :: rest) w).2.fs
      = (env.archive (env.join [b]) (env.join [o, m.Id ++ mtarSuffix]) w.fs).2
    ∧ archiveCalls (callsSince w (generateMtar env relPath (b :: o :: rest) w).2)
      = [(env.join [b], env.join [o, m.Id ++ mtarSuffix])]
    ∧ removeCalls (callsSince w (generateMtar env relPath (b :: o :: rest) w).2) = [] := by
  simp only [generateMtar, processMta, hread, generateMtarProcess, hparse]
  rcases env.archive (env.join [b]) (env.join [o, m.Id ++ mtarSuffix]) w.fs with ⟨_ | a, s1⟩ <;>
    simp [callsSince, archiveCalls, removeCalls]

/-- C7, as amended: when `mta.yaml` parses to a descriptor whose id is empty, `generateMtar`
does not fail for that reason: it calls `fs.Archive` once, with source `filepath.Join(b)`
and destination `filepath.Join(o, ".mtar")`, and returns what that call returned. -/
theorem generateMtar_empty_id {σ : Type} (env : Env σ) (relPath b o : String)
    (rest : List String) (w : World σ) (file : Bytes) (m : MTA)
    (hread : env.readExtFile relPath "mta.yaml" w.fs = Except.ok file)
    (hparse : env.parseToMta file = Except.ok m) (hid : m.Id = "") :
    archiveCalls (callsSince w (generateMtar env relPath (b :: o :: rest) w).2)
      = [(env.join [b], env.join [o, ".mtar"])]
    ∧ (generateMtar env relPath (b :: o :: rest) w).1
      = Outcome.ret (env.archive (env.join [b]) (env.join [o, ".mtar"]) w.fs).1 := by
  have h := generateMtar_parsed env relPath b o rest w file m hread hparse
  have hs : m.Id ++ mtarSuffix = ".mtar" := by rw [hid]; rfl
  rw [hs] at h
  exact ⟨h.2.2.1, h.1⟩

/-- C8, as amended: when reading `mta.yaml` fails with `e`, `processMta` returns the error
`errors.New("MTA file not found: " + e)` whatever the callback is, having made no call but
the read (the callback is not run), and so do `generateMtar` and `generateMeta`; when
`mta.yaml` is read and `mta.ParseToMta` fails with `pe`, `generateMtar` and `generateMeta`
return `pe` itself; and the error of the first case is the error of the second exactly when
`pe` is itself the `errors.New` error with the text `"MTA file not found: " + e`. -/
theorem missing_and_malformed_descriptor {σ : Type} (env : Env σ)
    (relPath : String) (args : List String) (w w1 : World σ) (e pe : GoError) (file : Bytes)
    (hmiss : env.readExtFile relPath "mta.yaml" w.fs = Except.error e)
    (hread : env.readExtFile relPath "mta.yaml" w1.fs = Except.ok file)
    (hbad : env.parseToMta file = Except.error pe) :
    (∀ (name : String) (process : Bytes → List String → World σ → Outcome × World σ),
      processMta env name relPath args process w
        = (Outcome.ret (some (errorsNew ("MTA file not found: " ++ e.msg))),
            ⟨w.fs, w.trace ++ [Event.logInfo ("Starting " ++ name),
              Event.readExtFile relPath "mta.yaml"]⟩))
    ∧ (generateMtar env relPath args w).1
        = Outcome.ret (some (errorsNew ("MTA file not found: " ++ e.msg)))
    ∧ (generateMeta env relPath args w).1
        = Outcome.ret (some (errorsNew ("MTA file not found: " ++ e.msg)))
    ∧ (generateMtar env relPath args w1).1 = Outcome.ret (some pe)
    ∧ (generateMeta env relPath args w1).1 = Outcome.ret (some pe)
    ∧ ((generateMtar env relPath args w).1 = (generateMtar env relPath args w1).1
        ↔ pe = errorsNew ("MTA file not found: " ++ e.msg))
    ∧ ((generateMeta env relPath args w).1 = (generateMeta env relPath args w1).1
        ↔ pe = errorsNew ("MTA file not found: " ++ e.msg)) := by
  have hmtar : (generateMtar env relPath args w1).1 = Outcome.ret (some pe) :=
    processMta_process_error env _ relPath args _ w1 file pe hread
      (by simp only [generateMtarProcess, hbad])
  have hmeta : (generateMeta env relPath args w1).1 = Outcome.ret (some pe) :=
    processMta_process_error env _ relPath args _ w1 file pe hread
      (by simp only [generateMetaProcess, hbad])
  have hmtar0 : (generateMtar env relPath args w).1
      = Outcome.ret (some (errorsNew ("MTA file not found: " ++ e.msg))) := by
    rw [generateMtar, processMta_read_error env _ relPath args _ w e hmiss]
  have hmeta0 : (generateMeta env relPath args w).1
      = Outcome.ret (some (errorsNew ("MTA file not found: " ++ e.msg))) := by
    rw [generateMeta, processMta_read_error env _ relPath args _ w e hmiss]
  refine ⟨fun name process => processMta_read_error env name relPath args process w e hmiss,
    hmtar0, hmeta0, hmtar, hmeta, ?_, ?_⟩
  · rw [hmtar, hmtar0]
    constructor
    · intro h
      exact (Option.some.inj (Outcome.ret.inj h)).symm
    · intro h
      rw [h]
  · rw [hmeta, hmeta0]
    constructor
    · intro h
      exact (Option.some.inj (Outcome.ret.inj h)).symm
    · intro h
      rw [h]

/-! ## `cleanup` -/

theorem cleanup_removed {σ : Type} (env : Env σ) (path : String) (rest : List String)
    (w : World σ) (s1 : σ) (hr : env.removeAll path w.fs = (none, s1)) :
    cleanup env (path :: rest) w
      = (Outcome.ret none, ⟨s1, w.trace ++ [Event.logInfo "Starting Cleanup process",
          Event.removeAll path, Event.logInfo "Done"]⟩) := by
  simp only [cleanup, hr]

theorem cleanup_failed {σ : Type} (env : Env σ) (path : String) (rest : List String)
    (w : World σ) (e : GoError) (s1 : σ) (hr : env.removeAll path w.fs = (some e, s1)) :
    cleanup env (path :: rest) w
      = (Outcome.ret none, ⟨s1, w.trace ++ [Event.logInfo "Starting Cleanup process",
          Event.removeAll path, Event.logError e.msg]⟩) := by
  simp only [cleanup, hr]

/-- C9, as amended: under the contract of `os.RemoveAll`, `cleanup` on a path with nothing
at or beneath it logs no error and leaves the filesystem as it was; and whenever a run of
`cleanup` on a path logs no error, a second run on the same path logs no error either and
leaves the filesystem of the first, in which nothing is at or beneath the path and every
name outside it holds what it held before the first run. -/
theorem cleanup_idempotent {σ : Type} (env : Env σ) (hc : RemoveAllContract env)
    (path : String) (rest : List String) (w : World σ) :
    ((∀ q : String, env.within path q = true → env.stat w.fs q = none) →
      errorLogs (callsSince w (cleanup env (path :: rest) w).2) = []
      ∧ (cleanup env (path :: rest) w).2.fs = w.fs)
    ∧ (errorLogs (callsSince w (cleanup env (path :: rest) w).2) = [] →
      errorLogs (callsSince (cleanup env (path :: rest) w).2
          (cleanup env (path :: rest) (cleanup env (path :: rest) w).2).2) = []
      ∧ (cleanup env (path :: rest) (cleanup env (path :: rest) w).2).2.fs
          = (cleanup env (path :: rest) w).2.fs
      ∧ (∀ q : String, env.within path q = true →
          env.stat (cleanup env (path :: rest) w).2.fs q = none)
      ∧ (∀ q : String, env.within path q = false →
          env.stat (cleanup env (path :: rest) w).2.fs q = env.stat w.fs q)) := by
  constructor
  · intro habs
    rw [cleanup_removed env path rest w w.fs (hc.absent w.fs path habs), callsSince_append]
    simp [errorLogs]
  · rcases hr : env.removeAll path w.fs with ⟨_ | e, s1⟩
    · intro _
      have hgone := hc.removed w.fs s1 path hr
      rw [cleanup_removed env path rest w s1 hr]
      rw [cleanup_removed env path rest _ s1 (hc.absent s1 path hgone), callsSince_append]
      exact ⟨by simp [errorLogs], rfl, hgone, hc.frame w.fs s1 path none hr⟩
    · rw [cleanup_failed env path rest w e s1 hr, callsSince_append]
      intro h
      simp [errorLogs] at h

/-! ## Paths of the concrete environment -/

theorem splitPath_ne_nil (cs : List Char) : splitPath cs ≠ [] := by
  cases cs with
  | nil => simp [splitPath]
  | cons c cs =>
    unfold splitPath
    split
    · simp
    · split <;> simp

theorem splitPath_append_sep (a b : List Char) :
    splitPath (a ++ '/' :: b) = splitPath a ++ splitPath b := by
  induction a with
  | nil => simp [splitPath]
  | cons c a ih =>
    by_cases hc : c = '/'
    · simp [splitPath, hc, ih]
    · rcases hs : splitPath a with _ | ⟨x, xs⟩
      · exact absurd hs (splitPath_ne_nil a)
      · simp [splitPath, hc, ih, hs]

theorem splitPath_of_no_sep (a : List Char) (h : '/' ∉ a) : splitPath a = [a] := by
  induction a with
  | nil => rfl
  | cons c a ih =>
    have hc : c ≠ '/' := fun hc => h (by simp [hc])
    have ha : '/' ∉ a := fun ha => h (List.mem_cons_of_mem c ha)
    simp [splitPath, hc, ih ha]

theorem no_sep_of_mem_splitPath (cs x : List Char) (hx : x ∈ splitPath cs) : '/' ∉ x := by
  induction cs generalizing x with
  | nil => simp [splitPath] at hx; simp [hx]
  | cons c cs ih =>
    by_cases hc : c = '/'
    · simp [splitPath, hc] at hx
      rcases hx with hx | hx
      · simp [hx]
      · exact ih x hx
    · rcases hs : splitPath cs with _ | ⟨y, ys⟩
      · exact absurd hs (splitPath_ne_nil cs)
      · simp [splitPath, hc, hs] at hx
        rcases hx with hx | hx
        · have hy := ih y (by simp [hs])
          rw [hx]
          intro hm
          rcases List.mem_cons.mp hm with h1 | h1
          · exact hc h1.symm
          · exact hy h1
        · exact ih x (by simp [hs, hx])

theorem intercalate_go_data (acc : String) (l : List String) :
    (String.intercalate.go acc "/" l).data = acc.data ++ sepData l := by
  induction l generalizing acc with
  | nil => simp [String.intercalate.go, sepData]
  | cons b bs ih =>
    rw [String.intercalate.go, ih]
    simp [sepData, String.data_append]

theorem splitPath_sepData (a : List Char) (l : List String) (ha : '/' ∉ a)
    (hl : ∀ b ∈ l, '/' ∉ b.data) :
    splitPath (a ++ sepData l) = a :: l.map String.data := by
  induction l generalizing a with
  | nil => simp [sepData, splitPath_of_no_sep a ha]
  | cons b bs ih =>
    have hb : '/' ∉ b.data := hl b (List.mem_cons_self b bs)
    have hbs : ∀ c ∈ bs, '/' ∉ c.data := fun c hc => hl c (List.mem_cons_of_mem b hc)
    rw [sepData, splitPath_append_sep, splitPath_of_no_sep a ha, ih b.data hb hbs]
    simp

theorem splitPath_intercalate (l : List String) (hne : l ≠ [])
    (hl : ∀ b ∈ l, '/' ∉ b.data) :
    (splitPath ("/".intercalate l).data).map String.mk = l := by
  cases l with
  | nil => exact absurd rfl hne
  | cons a as =>
    have ha : '/' ∉ a.data := hl a (List.mem_cons_self a as)
    have has : ∀ c ∈ as, '/' ∉ c.data := fun c hc => hl c (List.mem_cons_of_mem a hc)
    rw [String.intercalate, intercalate_go_data, splitPath_sepData a.data as ha has]
    have hid : (String.mk ∘ String.data) = id := funext (fun _ => rfl)
    simp [hid]

theorem cleanStep_plain (r : Bool) (acc : List String) (c : String) (h : PlainElem c) :
    cleanStep r acc c = c :: acc := by
  simp [cleanStep, h.1, h.2.1, h.2.2]

theorem foldl_cleanStep_plain (r : Bool) (l acc : List String) (h : ∀ x ∈ l, PlainElem x) :
    l.foldl (cleanStep r) acc = l.reverse ++ acc := by
  induction l generalizing acc with
  | nil => rfl
  | cons c cs ih =>
    rw [List.foldl_cons, cleanStep_plain r acc c (h c (List.mem_cons_self c cs)),
      ih _ (fun x hx => h x (List.mem_cons_of_mem c hx))]
    simp

theorem cleanStep_mem (r : Bool) (acc : List String) (c x : String)
    (hx : x ∈ cleanStep r acc c) : x ∈ acc ∨ x = c := by
  unfold cleanStep at hx
  split at hx
  · exact Or.inl hx
  · split at hx
    · next hc =>
      cases acc with
      | nil =>
        cases r <;> simp at hx
        exact Or.inr (by rw [hx, hc])
      | cons top rest =>
        simp only at hx
        split at hx
        · rcases List.mem_cons.mp hx with h1 | h1
          · exact Or.inr h1
          · exact Or.inl h1
        · exact Or.inl (List.mem_cons_of_mem top hx)
    · rcases List.mem_cons.mp hx with h1 | h1
      · exact Or.inr h1
      · exact Or.inl h1

theorem foldl_cleanStep_mem (r : Bool) (l acc : List String) (x : String)
    (hx : x ∈ l.foldl (cleanStep r) acc) : x ∈ acc ∨ x ∈ l := by
  induction l generalizing acc with
  | nil => exact Or.inl hx
  | cons c cs ih =>
    rcases ih _ hx with h1 | h1
    · rcases cleanStep_mem r acc c x h1 with h2 | h2
      · exact Or.inl h2
      · exact Or.inr (by simp [h2])
    · exact Or.inr (List.mem_cons_of_mem c h1)

theorem cleanStep_rooted_plain (acc : List String) (c : String)
    (h : ∀ x ∈ acc, PlainElem x) : ∀ x ∈ cleanStep true acc c, PlainElem x := by
  intro x hx
  unfold cleanStep at hx
  split at hx
  · exact h x hx
  · next h1 =>
    split at hx
    · cases acc with
      | nil => simp at hx
      | cons top rest =>
        simp only at hx
        split at hx
        · next ht => exact absurd ht (h top (List.mem_cons_self top rest)).2.2
        · exact h x (List.mem_cons_of_mem top hx)
    · next h2 =>
      rcases List.mem_cons.mp hx with h3 | h3
      · rw [h3]
        exact ⟨fun h4 => h1 (Or.inl h4), fun h4 => h1 (Or.inr h4), h2⟩
      · exact h x h3

theorem foldl_cleanStep_rooted_plain (l acc : List String)
    (h : ∀ x ∈ acc, PlainElem x) : ∀ x ∈ l.foldl (cleanStep true) acc, PlainElem x := by
  induction l generalizing acc with
  | nil => exact h
  | cons c cs ih => exact ih _ (cleanStep_rooted_plain acc c h)

theorem cleanStep_noDots (r : Bool) (acc : List String) (c : String) (h : NoDots acc) :
    NoDots (cleanStep r acc c) := by
  intro x hx
  rcases cleanStep_mem r acc c x hx with h1 | h1
  · exact h x h1
  · by_cases hc : c = "" ∨ c = "."
    · simp only [cleanStep, hc, if_true] at hx
      exact h x hx
    · rw [h1]
      exact ⟨fun h2 => hc (Or.inl h2), fun h2 => hc (Or.inr h2)⟩

theorem foldl_cleanStep_noDots (r : Bool) (l acc : List String) (h : NoDots acc) :
    NoDots (l.foldl (cleanStep r) acc) := by
  induction l generalizing acc with
  | nil => exact h
  | cons c cs ih => exact ih _ (cleanStep_noDots r acc c h)

/-- Cleaning a relative path first and resolving the result from a directory gives what
resolving the path itself gives. -/
theorem foldl_cleanStep_cleaned (ys acc : List String) :
    ((ys.foldl (cleanStep false) []).reverse).foldl (cleanStep true) acc
      = ys.foldl (cleanStep true) acc := by
  induction ys using List.reverseRecOn with
  | nil => rfl
  | append_singleton zs c ih =>
    rw [List.foldl_append, List.foldl_append, List.foldl_cons, List.foldl_nil, List.foldl_cons,
      List.foldl_nil, ← ih]
    have hS := foldl_cleanStep_noDots false zs [] (by intro x hx; simp at hx)
    generalize zs.foldl (cleanStep false) [] = S at hS ⊢
    by_cases hc : c = "" ∨ c = "."
    · simp only [cleanStep, hc, if_true]
    · by_cases hd : c = ".."
      · cases S with
        | nil => simp [cleanStep, hd]
        | cons top rest =>
          by_cases ht : top = ".."
          · have h1 : cleanStep false (top :: rest) c = c :: top :: rest := by
              simp [cleanStep, hd, ht]
            rw [h1, List.reverse_cons, List.foldl_append, List.foldl_cons, List.foldl_nil]
          · have h1 : cleanStep false (top :: rest) c = rest := by
              simp [cleanStep, hd, ht]
            have htn : PlainElem top :=
              ⟨(hS top (List.mem_cons_self top rest)).1,
                (hS top (List.mem_cons_self top rest)).2, ht⟩
            rw [h1, List.reverse_cons, List.foldl_append, List.foldl_cons, List.foldl_nil,
              cleanStep_plain true _ top htn]
            simp [cleanStep, hd, ht]
      · have hn : PlainElem c := ⟨fun h => hc (Or.inl h), fun h => hc (Or.inr h), hd⟩
        rw [cleanStep_plain false S c hn, List.reverse_cons, List.foldl_append,
          List.foldl_cons, List.foldl_nil]

theorem isRooted_append (t u : String) (ht : t ≠ "") : isRooted (t ++ u) = isRooted t := by
  have hd : t.data ≠ [] := fun h => ht (String.ext h)
  rcases hdata : t.data with _ | ⟨c, cs⟩
  · exact absurd hdata hd
  · simp [isRooted, String.data_append, hdata]

theorem cleanElems_append_plain (t n : String) (ht : t ≠ "") (hn : PlainElem n)
    (hs : '/' ∉ n.data) : cleanElems (t ++ "/" ++ n) = cleanElems t ++ [n] := by
  have hr : isRooted (t ++ "/" ++ n) = isRooted t := by
    rw [String.append_assoc, isRooted_append t _ ht]
  have hd : (t ++ "/" ++ n).data = t.data ++ '/' :: n.data := by
    simp [String.data_append]
  unfold cleanElems
  rw [hr, hd, splitPath_append_sep, splitPath_of_no_sep n.data hs, List.map_append,
    List.foldl_append]
  simp only [List.map_cons, List.map_nil, List.foldl_cons, List.foldl_nil]
  rw [cleanStep_plain _ _ _ hn, List.reverse_cons]

theorem cleanElems_append_empty (t : String) (ht : t ≠ "") :
    cleanElems (t ++ "/") = cleanElems t := by
  have hr : isRooted (t ++ "/") = isRooted t := isRooted_append t _ ht
  have hd : (t ++ "/").data = t.data ++ '/' :: [] := by
    simp [String.data_append]
  unfold cleanElems
  rw [hr, hd, splitPath_append_sep, List.map_append, List.foldl_append]
  simp [splitPath, cleanStep]

theorem no_sep_of_mem_cleanElems (y x : String) (hx : x ∈ cleanElems y) : '/' ∉ x.data := by
  unfold cleanElems at hx
  rcases foldl_cleanStep_mem _ _ _ x (List.mem_reverse.mp hx) with h | h
  · simp at h
  · rcases List.mem_map.mp h with ⟨cs, hcs, hmk⟩
    rw [← hmk]
    exact no_sep_of_mem_splitPath y.data cs hcs

theorem isRooted_data (p : String) (c : Char) (cs : List Char) (h : p.data = c :: cs) :
    isRooted p = decide (c = '/') := by
  simp [isRooted, h]

theorem isRooted_sep_append (x : String) : isRooted ("/" ++ x) = true := by
  have hd : ("/" ++ x).data = '/' :: x.data := by simp [String.data_append]
  rw [isRooted_data _ _ _ hd]
  simp

theorem cleanElems_clean_rooted (y : String) (hy : isRooted y = true) :
    cleanElems ("/" ++ "/".intercalate (cleanElems y)) = cleanElems y := by
  have hplain : ∀ x ∈ cleanElems y, PlainElem x := by
    intro x hx
    unfold cleanElems at hx
    rw [hy] at hx
    exact foldl_cleanStep_rooted_plain _ [] (by intro z hz; simp at hz) x
      (List.mem_reverse.mp hx)
  have hd : ("/" ++ "/".intercalate (cleanElems y)).data
      = [] ++ '/' :: ("/".intercalate (cleanElems y)).data := by
    simp [String.data_append]
  generalize hL : cleanElems y = L at hplain hd ⊢
  have hsep : ∀ x ∈ L, '/' ∉ x.data := by
    intro x hx
    rw [← hL] at hx
    exact no_sep_of_mem_cleanElems y x hx
  unfold cleanElems
  rw [isRooted_sep_append, hd, splitPath_append_sep, List.map_append, List.foldl_append]
  by_cases hne : L = []
  · subst hne
    simp [splitPath, cleanStep, String.intercalate]
  · rw [splitPath_intercalate L hne hsep, foldl_cleanStep_plain true L _ hplain]
    simp [splitPath, cleanStep]

theorem isRooted_intercalate (L : List String) (hne : L ≠ [])
    (hL : ∀ x ∈ L, x ≠ "" ∧ '/' ∉ x.data) : isRooted ("/".intercalate L) = false := by
  cases L with
  | nil => exact absurd rfl hne
  | cons a as =>
    have ha := hL a (List.mem_cons_self a as)
    have hd : a.data ≠ [] := fun h => ha.1 (String.ext h)
    rcases hdata : a.data with _ | ⟨c, cs⟩
    · exact absurd hdata hd
    · have hc : c ≠ '/' := by
        intro hc
        apply ha.2
        rw [hdata, hc]
        exact List.mem_cons_self _ _
      have hz : ("/".intercalate (a :: as)).data = c :: (cs ++ sepData as) := by
        rw [String.intercalate, intercalate_go_data, hdata]
        rfl
      rw [isRooted_data _ _ _ hz]
      simp [hc]

/-- Resolving the cleaned form of a path gives what resolving the path gives. -/
theorem resolve_filepathClean (cwd y : String) (hcwd : isRooted cwd = true) :
    resolve cwd (filepathClean y) = resolve cwd y := by
  have hcne : cwd ≠ "" := by
    intro h
    rw [h] at hcwd
    simp [isRooted] at hcwd
  by_cases hy : isRooted y = true
  · have h1 : filepathClean y = "/" ++ "/".intercalate (cleanElems y) := by
      simp [filepathClean, hy]
    rw [h1, resolve, resolve, isRooted_sep_append, hy]
    simp only [if_true]
    exact cleanElems_clean_rooted y hy
  · have hy0 : isRooted y = false := by simpa using hy
    have hres : ∀ z : String, isRooted z = false →
        resolve cwd z = (((splitPath z.data).map String.mk).foldl (cleanStep true)
          (((splitPath cwd.data).map String.mk).foldl (cleanStep true) [])).reverse := by
      intro z hz
      have hr : isRooted (cwd ++ "/" ++ z) = true := by
        rw [String.append_assoc, isRooted_append cwd _ hcne, hcwd]
      have hd : (cwd ++ "/" ++ z).data = cwd.data ++ '/' :: z.data := by
        simp [String.data_append]
      rw [resolve, hz]
      simp only [Bool.false_eq_true, if_false]
      unfold cleanElems
      rw [hr, hd, splitPath_append_sep, List.map_append, List.foldl_append]
    rw [hres y hy0]
    have hL : cleanElems y
        = (((splitPath y.data).map String.mk).foldl (cleanStep false) []).reverse := by
      rw [cleanElems, hy0]
    by_cases hne : cleanElems y = []
    · have h1 : filepathClean y = "." := by
        simp [filepathClean, hy0, hne]
      have hy1 := foldl_cleanStep_cleaned ((splitPath y.data).map String.mk)
        (((splitPath cwd.data).map String.mk).foldl (cleanStep true) [])
      rw [← hL, hne] at hy1
      rw [h1, hres "." (by decide), ← hy1]
      simp [splitPath, cleanStep]
    · have h1 : filepathClean y = "/".intercalate (cleanElems y) := by
        simp [filepathClean, hy0, hne]
      have hsep : ∀ x ∈ cleanElems y, '/' ∉ x.data := no_sep_of_mem_cleanElems y
      have hnd : ∀ x ∈ cleanElems y, x ≠ "" ∧ '/' ∉ x.data := by
        intro x hx
        refine ⟨?_, hsep x hx⟩
        have hx1 := hx
        rw [hL] at hx1
        exact (foldl_cleanStep_noDots false _ [] (by intro z hz; simp at hz) x
          (List.mem_reverse.mp hx1)).1
      rw [h1, hres _ (isRooted_intercalate _ hne hnd), splitPath_intercalate _ hne hsep, hL,
        foldl_cleanStep_cleaned]

theorem plainName_not_rooted (n : String) (hn : n ≠ "") (hs : '/' ∉ n.data) :
    isRooted n = false := by
  have hd : n.data ≠ [] := fun h => hn (String.ext h)
  rcases hdata : n.data with _ | ⟨c, cs⟩
  · exact absurd hdata hd
  · have hc : c ≠ '/' := by
      intro hc
      apply hs
      rw [hdata, hc]
      exact List.mem_cons_self _ _
    rw [isRooted_data _ _ _ hdata]
    simp [hc]

/-- In the Unix environment, `filepath.Join(t, n)` with a name `n` that is one path element
is the entry `n` of `t`: its elements are those of `t` and then `n`. -/
theorem resolve_join_child (cwd t n : String) (hcwd : isRooted cwd = true)
    (hn : PlainName n) : resolve cwd (filepathJoin [t, n]) = resolve cwd t ++ [n] := by
  have hcne : cwd ≠ "" := by
    intro h
    rw [h] at hcwd
    simp [isRooted] at hcwd
  have hp : PlainElem n := ⟨hn.1, hn.2.1, hn.2.2.1⟩
  have hnr : isRooted n = false := plainName_not_rooted n hn.1 hn.2.2.2
  by_cases ht : t = ""
  · subst ht
    have h1 : filepathJoin ["", n] = filepathClean n := by
      simp [filepathJoin, hn.1, String.intercalate, String.intercalate.go]
    rw [h1, resolve_filepathClean cwd n hcwd, resolve, resolve, hnr]
    simp only [Bool.false_eq_true, if_false]
    have h2 : isRooted "" = false := by decide
    rw [h2]
    simp only [Bool.false_eq_true, if_false, String.append_empty]
    rw [cleanElems_append_plain cwd n hcne hp hn.2.2.2, cleanElems_append_empty cwd hcne]
  · have h1 : filepathJoin [t, n] = filepathClean (t ++ "/" ++ n) := by
      simp [filepathJoin, ht, String.intercalate, String.intercalate.go]
    rw [h1, resolve_filepathClean cwd _ hcwd, resolve, resolve]
    have hr : isRooted (t ++ "/" ++ n) = isRooted t := by
      rw [String.append_assoc, isRooted_append t _ ht]
    rw [hr]
    by_cases hrt : isRooted t = true
    · simp only [hrt, if_true]
      exact cleanElems_append_plain t n ht hp hn.2.2.2
    · simp only [hrt, if_false]
      have hne : cwd ++ "/" ++ t ≠ "" := by
        intro h
        have h3 := congrArg String.length h
        simp at h3
        exact absurd h3.1.2 (by decide)
      have hassoc : cwd ++ "/" ++ (t ++ "/" ++ n) = cwd ++ "/" ++ t ++ "/" ++ n := by
        simp [String.append_assoc]
      rw [hassoc]
      exact cleanElems_append_plain _ n hne hp hn.2.2.2

theorem filepathClean_ne_empty (y : String) : filepathClean y ≠ "" := by
  unfold filepathClean
  split
  · intro h
    have h1 := congrArg String.length h
    simp at h1
    exact absurd h1.1 (by decide)
  · split
    · decide
    · next hy hne =>
      have hy0 : isRooted y = false := by simpa using hy
      have hnd : ∀ x ∈ cleanElems y, x ≠ "" ∧ '/' ∉ x.data := by
        intro x hx
        refine ⟨?_, no_sep_of_mem_cleanElems y x hx⟩
        have hx1 := hx
        rw [cleanElems, hy0] at hx1
        exact (foldl_cleanStep_noDots false _ [] (by intro z hz; simp at hz) x
          (List.mem_reverse.mp hx1)).1
      rcases hL : cleanElems y with _ | ⟨a, as⟩
      · exact absurd hL hne
      · rw [hL] at hnd
        have ha := (hnd a (List.mem_cons_self a as)).1
        intro h
        have h1 := congrArg String.data h
        rw [String.intercalate, intercalate_go_data] at h1
        have h2 : a.data = [] := (List.append_eq_nil.mp h1).1
        exact ha (String.ext h2)

theorem filepathJoin_ne_empty (t n : String) (hn : n ≠ "") : filepathJoin [t, n] ≠ "" := by
  by_cases ht : t = ""
  · subst ht
    have h1 : filepathJoin ["", n] = filepathClean n := by
      simp [filepathJoin, hn, String.intercalate, String.intercalate.go]
    rw [h1]
    exact filepathClean_ne_empty n
  · have h1 : filepathJoin [t, n] = filepathClean (t ++ "/" ++ n) := by
      simp [filepathJoin, ht, String.intercalate, String.intercalate.go]
    rw [h1]
    exact filepathClean_ne_empty _

/-- In the Unix environment, `filepath.Join(t, n)` with a name `n` that is one path element
names something beneath `t`. -/
theorem unixWithin_join_child (cwd t n : String) (hcwd : isRooted cwd = true) (ht : t ≠ "")
    (hn : PlainName n) : unixWithin cwd t (filepathJoin [t, n]) = true := by
  have hj := filepathJoin_ne_empty t n hn.1
  have hpre : (resolve cwd t).isPrefixOf (resolve cwd (filepathJoin [t, n])) = true := by
    rw [resolve_join_child cwd t n hcwd hn, List.isPrefixOf_iff_prefix]
    exact List.prefix_append _ _
  simp [unixWithin, ht, hj, hpre]

/-! ## The concrete environment keeps the contracts -/

theorem find?_filter_of_imp {α : Type} (f g : α → Bool) (l : List α)
    (h : ∀ x ∈ l, f x = true → g x = true) : (l.filter g).find? f = l.find? f := by
  induction l with
  | nil => rfl
  | cons x xs ih =>
    have ih1 := ih (fun y hy => h y (List.mem_cons_of_mem x hy))
    by_cases hg : g x = true
    · rw [List.filter_cons_of_pos hg]
      by_cases hf : f x = true
      · rw [List.find?_cons_of_pos _ hf, List.find?_cons_of_pos _ hf]
      · rw [List.find?_cons_of_neg _ hf, List.find?_cons_of_neg _ hf, ih1]
    · rw [List.filter_cons_of_neg hg]
      have hf : ¬ f x = true := fun hf => hg (h x (List.mem_cons_self x xs) hf)
      rw [List.find?_cons_of_neg _ hf, ih1]

theorem samePath_self (cwd a : String) (ha : a ≠ "") : samePath cwd a a = true := by
  simp [samePath, ha]

theorem unixWithin_ne_empty (cwd p q : String) (h : unixWithin cwd p q = true) :
    p ≠ "" ∧ q ≠ "" := by
  simp only [unixWithin, Bool.and_eq_true, Bool.not_eq_true', decide_eq_false_iff_not] at h
  exact ⟨h.1.1, h.1.2⟩

theorem unixWithin_empty (cwd q : String) : unixWithin cwd "" q = false := by
  simp [unixWithin]

theorem unixWithin_of_samePath (cwd p a b : String) (h : samePath cwd a b = true) :
    unixWithin cwd p a = unixWithin cwd p b := by
  simp only [samePath, Bool.and_eq_true, Bool.not_eq_true', decide_eq_false_iff_not,
    decide_eq_true_eq] at h
  simp only [unixWithin, h.2, h.1.1, h.1.2, decide_False]

theorem unixStat_ne_none_of_mem (cwd : String) (s : MemFS) (e : String × Node)
    (he : e ∈ s.entries) (hne : e.1 ≠ "") : unixStat cwd s e.1 ≠ none := by
  intro h
  have h1 : s.entries.find? (fun x => samePath cwd x.1 e.1) = none := by
    simpa [unixStat] using h
  have h2 := List.find?_eq_none.mp h1 e he
  exact h2 (samePath_self cwd e.1 hne)

theorem unixStat_none_of_outside (cwd p : String) (s : MemFS)
    (hout : ∀ e ∈ s.entries, unixWithin cwd p e.1 = false) (q : String)
    (hq : unixWithin cwd p q = true) : unixStat cwd s q = none := by
  have hnone : s.entries.find? (fun e => samePath cwd e.1 q) = none := by
    rw [List.find?_eq_none]
    intro e he hsame
    have hw := unixWithin_of_samePath cwd p e.1 q hsame
    rw [hq, hout e he] at hw
    exact Bool.false_ne_true hw
  simp only [unixStat, hnone, Option.map_none']

theorem removeTree_fs (cwd p : String) (s : MemFS) :
    (removeTree cwd p s).2 = ⟨s.entries.filter (fun e =>
        !(unixWithin cwd p e.1) || s.locked.any (fun l => unixWithin cwd e.1 l)), s.locked⟩ := by
  unfold removeTree
  split <;> rfl

theorem unixRemoveAll_empty (cwd : String) (s : MemFS) : unixRemoveAll cwd "" s = (none, s) := by
  simp [unixRemoveAll]

theorem unixRemoveAll_of_ne (cwd p : String) (s : MemFS) (hp : p ≠ "") :
    unixRemoveAll cwd p s = removeTree cwd p s := by
  simp [unixRemoveAll, hp]

theorem removeTree_absent (cwd p : String) (s : MemFS)
    (h : ∀ q, unixWithin cwd p q = true → unixStat cwd s q = none) :
    removeTree cwd p s = (none, s) := by
  have hout : ∀ e ∈ s.entries, unixWithin cwd p e.1 = false := by
    intro e he
    by_contra hw
    have hw1 : unixWithin cwd p e.1 = true := by simpa using hw
    exact unixStat_ne_none_of_mem cwd s e he (unixWithin_ne_empty cwd p e.1 hw1).2
      (h e.1 hw1)
  have hkeep : s.entries.filter (fun e =>
      !(unixWithin cwd p e.1) || s.locked.any (fun l => unixWithin cwd e.1 l)) = s.entries := by
    apply List.filter_eq_self.mpr
    intro e he
    simp [hout e he]
  unfold removeTree
  rw [hkeep]
  have hany : s.entries.any (fun e => unixWithin cwd p e.1) = false := by
    rw [List.any_eq_false]
    intro e he
    simp [hout e he]
  simp [hany]

theorem removeTree_removed (cwd p : String) (s s1 : MemFS)
    (h0 : removeTree cwd p s = (none, s1)) (q : String) (hq1 : unixWithin cwd p q = true) :
    unixStat cwd s1 q = none := by
  have hfs := removeTree_fs cwd p s
  rw [h0] at hfs
  have hany : (s.entries.filter (fun e =>
      !(unixWithin cwd p e.1) || s.locked.any (fun l => unixWithin cwd e.1 l))).any
      (fun e => unixWithin cwd p e.1) = false := by
    by_contra hc
    have hc1 : (s.entries.filter (fun e =>
      !(unixWithin cwd p e.1) || s.locked.any (fun l => unixWithin cwd e.1 l))).any
      (fun e => unixWithin cwd p e.1) = true := by simpa using hc
    unfold removeTree at h0
    rw [if_pos hc1] at h0
    simp at h0
  have hs1 : s1 = ⟨s.entries.filter (fun e =>
      !(unixWithin cwd p e.1) || s.locked.any (fun l => unixWithin cwd e.1 l)), s.locked⟩ := hfs
  rw [hs1]
  have hnone : (s.entries.filter (fun e =>
      !(unixWithin cwd p e.1) || s.locked.any (fun l => unixWithin cwd e.1 l))).find?
      (fun e => samePath cwd e.1 q) = none := by
    rw [List.find?_eq_none]
    intro e he hsame
    rw [List.any_eq_false] at hany
    have hw := unixWithin_of_samePath cwd p e.1 q hsame
    rw [hq1] at hw
    exact hany e he hw
  simp only [unixStat, hnone, Option.map_none']

theorem removeTree_frame (cwd p : String) (s s1 : MemFS) (r : Option GoError)
    (h0 : removeTree cwd p s = (r, s1)) (q : String) (hq1 : unixWithin cwd p q = false) :
    unixStat cwd s1 q = unixStat cwd s q := by
  have hfs := removeTree_fs cwd p s
  rw [h0] at hfs
  have hs1 : s1 = ⟨s.entries.filter (fun e =>
      !(unixWithin cwd p e.1) || s.locked.any (fun l => unixWithin cwd e.1 l)), s.locked⟩ := hfs
  rw [hs1]
  unfold unixStat
  rw [find?_filter_of_imp]
  intro e _ hsame
  have hw := unixWithin_of_samePath cwd p e.1 q hsame
  rw [hq1] at hw
  simp [hw]

theorem unixEnv_removeAllContract (cwd : String) (cfg : Platforms) :
    RemoveAllContract (unixEnv cwd cfg) where
  absent := by
    intro s p h
    show unixRemoveAll cwd p s = (none, s)
    by_cases hp : p = ""
    · rw [hp, unixRemoveAll_empty]
    · rw [unixRemoveAll_of_ne cwd p s hp]
      exact removeTree_absent cwd p s h
  removed := by
    intro s s1 p h q hq
    have hq1 : unixWithin cwd p q = true := hq
    have hp : p ≠ "" := (unixWithin_ne_empty cwd p q hq1).1
    have h0 : unixRemoveAll cwd p s = (none, s1) := h
    rw [unixRemoveAll_of_ne cwd p s hp] at h0
    exact removeTree_removed cwd p s s1 h0 q hq1
  frame := by
    intro s s1 p r h q hq
    have h0 : unixRemoveAll cwd p s = (r, s1) := h
    show unixStat cwd s1 q = unixStat cwd s q
    by_cases hp : p = ""
    · rw [hp, unixRemoveAll_empty] at h0
      rw [← (Prod.mk.inj h0).2]
    · rw [unixRemoveAll_of_ne cwd p s hp] at h0
      exact removeTree_frame cwd p s s1 r h0 q hq

/-! ## `packModule` in the concrete environment -/

/-- In the Unix environment, the folder `packModule(t, p, n)` creates for a name `n` that is
one path element is the entry `n` of `t`: its elements are those of `t` and then `n`,
whatever the module path `p` is. -/
theorem unix_destination_is_entry (cwd : String) (cfg : Platforms) (t p n : String)
    (w : World MemFS) (hcwd : isRooted cwd = true) (hn : PlainName n) :
    (mkdirCalls (callsSince w (packModule (unixEnv cwd cfg) t p n w).2)).map (resolve cwd)
      = [resolve cwd t ++ [n]] := by
  rw [(packModule_calls (unixEnv cwd cfg) t p n w).1]
  show [resolve cwd (filepathJoin [t, n])] = [resolve cwd t ++ [n]]
  rw [resolve_join_child cwd t n hcwd hn]

/-- In the Unix environment, when the archiving fails and the removal of `t` succeeds, the
folder of no module is left in `t`: not that of `n`, not that of a module `m` packaged
before. -/
theorem unix_rollback_leaves_no_module (cwd : String) (cfg : Platforms) (t p n : String)
    (w : World MemFS) (a : GoError) (s1 s2 s3 : MemFS) (hcwd : isRooted cwd = true)
    (hm : unixMkdirAll cwd (filepathJoin [t, n]) w.fs = (none, s1))
    (ha : unixArchive cwd (filepathJoin [cwd, p]) (filepathJoin [t, n] ++ "/data.zip") s1
      = (some a, s2))
    (hr : unixRemoveAll cwd t s2 = (none, s3)) (ht : t ≠ "") (m : String)
    (hplain : PlainName m) :
    unixStat cwd (packModule (unixEnv cwd cfg) t p n w).2.fs (filepathJoin [t, m]) = none := by
  rw [packModule_removal_ok (unixEnv cwd cfg) t p n w a s1 s2 s3 hm ha hr]
  exact (unixEnv_removeAllContract cwd cfg).removed s2 s3 t hr (filepathJoin [t, m])
    (unixWithin_join_child cwd t m hcwd ht hplain)

/-! ## `generateMtar` with Unix paths -/

theorem plainName_mtar (i : String) (hi : '/' ∉ i.data) : PlainName (i ++ ".mtar") := by
  have hlen : (i ++ ".mtar").length = i.length + 5 := by
    rw [String.length_append]
    rfl
  refine ⟨?_, ?_, ?_, ?_⟩
  · intro h
    have h1 := congrArg String.length h
    rw [hlen] at h1
    have h2 : "".length = 0 := rfl
    omega
  · intro h
    have h1 := congrArg String.length h
    rw [hlen] at h1
    have h2 : ".".length = 1 := rfl
    omega
  · intro h
    have h1 := congrArg String.length h
    rw [hlen] at h1
    have h2 : "..".length = 2 := rfl
    omega
  · intro h
    rw [String.data_append] at h
    rcases List.mem_append.mp h with h1 | h1
    · exact hi h1
    · revert h1
      decide

/-- The path `filepath.Join(b)` names the place `b` names. -/
theorem resolve_join_single (cwd b : String) (hcwd : isRooted cwd = true) :
    resolve cwd (filepathJoin [b]) = resolve cwd b := by
  by_cases hb : b = ""
  · subst hb
    rfl
  · have h1 : filepathJoin [b] = filepathClean b := by
      simp [filepathJoin, hb, String.intercalate, String.intercalate.go]
    rw [h1, resolve_filepathClean cwd b hcwd]

/-- C6, as amended: with the `filepath.Join` of a Unix system, when `mta.yaml` is read and
parses to a descriptor whose id `i` holds no path separator, `generateMtar` on the arguments
`b, o, ...` calls `fs.Archive` exactly once; the source `filepath.Join(b)` names the place
`b` names, and the destination `filepath.Join(o, i + ".mtar")` is the entry of `o` named
`i + ".mtar"` (its elements are those of `o` and then that name); `generateMtar` returns
what that call returned, leaves the filesystem that call left, and never calls
`os.RemoveAll`. -/
theorem generateMtar_archives_once {σ : Type} (env : Env σ) (hj : env.join = filepathJoin)
    (relPath b o : String) (rest : List String) (w : World σ) (file : Bytes) (m : MTA)
    (hread : env.readExtFile relPath "mta.yaml" w.fs = Except.ok file)
    (hparse : env.parseToMta file = Except.ok m) (hid : '/' ∉ m.Id.data) :
    archiveCalls (callsSince w (generateMtar env relPath (b :: o :: rest) w).2)
      = [(filepathJoin [b], filepathJoin [o, m.Id ++ ".mtar"])]
    ∧ (∀ cwd : String, isRooted cwd = true →
        resolve cwd (filepathJoin [b]) = resolve cwd b
        ∧ resolve cwd (filepathJoin [o, m.Id ++ ".mtar"]) = resolve cwd o ++ [m.Id ++ ".mtar"])
    ∧ (generateMtar env relPath (b :: o :: rest) w).1
      = Outcome.ret
          (env.archive (filepathJoin [b]) (filepathJoin [o, m.Id ++ ".mtar"]) w.fs).1
    ∧ (generateMtar env relPath (b :: o :: rest) w).2.fs
      = (env.archive (filepathJoin [b]) (filepathJoin [o, m.Id ++ ".mtar"]) w.fs).2
    ∧ removeCalls (callsSince w (generateMtar env relPath (b :: o :: rest) w).2) = [] := by
  have h := generateMtar_parsed env relPath b o rest w file m hread hparse
  rw [hj] at h
  exact ⟨h.2.2.1,
    fun cwd hcwd => ⟨resolve_join_single cwd b hcwd,
      resolve_join_child cwd o (m.Id ++ ".mtar") hcwd (plainName_mtar m.Id hid)⟩,
    h.1, h.2.1, h.2.2.2⟩

/-! ## Runs of the concrete environment -/

/-- A run of `packModule_nil_iff`: packing `mod2` from `build/out2` returns nil, removes
nothing and leaves `out/mod2/data.zip` with the bytes of the build output. -/
theorem packModule_nil_iff_witness :
    (packModule workEnv "out" "build/out2" "mod2" buildWorld).1 = none
    ∧ removeCalls (callsSince buildWorld
        (packModule workEnv "out" "build/out2" "mod2" buildWorld).2) = []
    ∧ mkdirCalls (callsSince buildWorld
        (packModule workEnv "out" "build/out2" "mod2" buildWorld).2) = ["out/mod2"]
    ∧ archiveCalls (callsSince buildWorld
        (packModule workEnv "out" "build/out2" "mod2" buildWorld).2)
      = [("/work/build/out2", "out/mod2/data.zip")]
    ∧ workEnv.stat (packModule workEnv "out" "build/out2" "mod2" buildWorld).2.fs
        "out/mod2/data.zip" = some (Node.file [4, 5]) := by
  have h := packModule_nil_iff workEnv "out" "build/out2" "mod2" buildWorld
  have h0 : (packModule workEnv "out" "build/out2" "mod2" buildWorld).1 = none :=
    h.1.mpr ⟨rfl, rfl⟩
  have h1 := h.2 h0
  refine ⟨h0, h1.1, h1.2.1, h1.2.2.1, ?_⟩
  rw [h1.2.2.2]
  decide

/-- The witness of `packModule_error_keeps_both`: the build output of `mod3` is missing and
a locked file stops the removal of `out`. -/
theorem packModule_error_keeps_both_witness :
    ∃ e : GoError,
      (packModule workEnv "out" "build/out3" "mod3"
        ⟨lockedState ["out/mod1/data.zip"], []⟩).1 = some e
      ∧ Contains e.msg "mod3" ∧ Contains e.msg noOutput3.msg ∧ Contains e.msg denied.msg
      ∧ Contains e.msg (zipErrorMsg "mod3" noOutput3) :=
  packModule_error_keeps_both workEnv "out" "build/out3" "mod3"
    ⟨lockedState ["out/mod1/data.zip"], []⟩ noOutput3 denied
    (unixMkdirAll "/work" "out/mod3" (lockedState ["out/mod1/data.zip"])).2
    (unixMkdirAll "/work" "out/mod3" (lockedState ["out/mod1/data.zip"])).2
    (unixRemoveAll "/work" "out"
      (unixMkdirAll "/work" "out/mod3" (lockedState ["out/mod1/data.zip"])).2).2
    rfl rfl rfl

/-- The witness of `packModule_creation_failure`: the build-artifacts directory named is
the file `mta.yaml`. -/
theorem packModule_creation_failure_witness :
    (packModule workEnv "mta.yaml" "build/out2" "mod2" buildWorld).1
      = some ⟨ErrKind.pathError, "mkdir mta.yaml/mod2: not a directory"⟩
    ∧ archiveCalls (callsSince buildWorld
        (packModule workEnv "mta.yaml" "build/out2" "mod2" buildWorld).2) = []
    ∧ removeCalls (callsSince buildWorld
        (packModule workEnv "mta.yaml" "build/out2" "mod2" buildWorld).2) = []
    ∧ (packModule workEnv "mta.yaml" "build/out2" "mod2" buildWorld).2.fs = buildState :=
  packModule_creation_failure workEnv "mta.yaml" "build/out2" "mod2" buildWorld
    ⟨ErrKind.pathError, "mkdir mta.yaml/mod2: not a directory"⟩ buildState rfl

/-- The counterexample of C7: the descriptor has no id and parses to the empty id, the
archive `.mtar` is written into `dist`, and `generateMtar` returns nil. -/
theorem generateMtar_writes_dot_mtar :
    parseDescriptor (bytesOf "modules:\n") = Except.ok ⟨"", [], []⟩
    ∧ (generateMtar workEnv "" ["out", "dist"] ⟨descriptorState "modules:\n", []⟩).1
      = Outcome.ret none
    ∧ archiveCalls (generateMtar workEnv "" ["out", "dist"]
        ⟨descriptorState "modules:\n", []⟩).2.trace = [("out", "dist/.mtar")]
    ∧ workEnv.stat (generateMtar workEnv "" ["out", "dist"]
        ⟨descriptorState "modules:\n", []⟩).2.fs "dist/.mtar"
      = some (Node.file [1, 2, 3, 4, 5]) :=
  ⟨rfl, by decide, by decide, by decide⟩

/-- The witness of `generateMtar_empty_id`: the descriptor has no id. -/
theorem generateMtar_empty_id_witness :
    archiveCalls (callsSince ⟨descriptorState "modules:\n", []⟩
      (generateMtar workEnv "" ["out", "dist"] ⟨descriptorState "modules:\n", []⟩).2)
      = [("out", "dist/.mtar")]
    ∧ (generateMtar workEnv "" ["out", "dist"] ⟨descriptorState "modules:\n", []⟩).1
      = Outcome.ret none :=
  generateMtar_empty_id workEnv "" "out" "dist" [] ⟨descriptorState "modules:\n", []⟩
    (bytesOf "modules:\n") ⟨"", [], []⟩ rfl rfl rfl

/-- The counterexample of C9: a locked file stops `os.RemoveAll`, and `cleanup` logs the
error on the first run and again on the second, in an environment that keeps the contract
of `os.RemoveAll`. -/
theorem cleanup_twice_denied :
    RemoveAllContract workEnv
    ∧ errorLogs (cleanup workEnv ["out"] ⟨lockedState ["out/mod1/data.zip"], []⟩).2.trace
      = ["unlinkat out: permission denied"]
    ∧ errorLogs (callsSince
        (cleanup workEnv ["out"] ⟨lockedState ["out/mod1/data.zip"], []⟩).2
        (cleanup workEnv ["out"]
          (cleanup workEnv ["out"] ⟨lockedState ["out/mod1/data.zip"], []⟩).2).2)
      = ["unlinkat out: permission denied"] :=
  ⟨unixEnv_removeAllContract "/work" cfConfig, by decide, by decide⟩

/-- The witness of `cleanup_idempotent`: the build-artifacts directory `out` is removed by
the first run, the second changes nothing, and `dist` is as it was; and nothing is at
`nowhere`, where `cleanup` changes nothing. -/
theorem cleanup_idempotent_witness :
    errorLogs (callsSince buildWorld (cleanup workEnv ["out"] buildWorld).2) = []
    ∧ errorLogs (callsSince (cleanup workEnv ["out"] buildWorld).2
        (cleanup workEnv ["out"] (cleanup workEnv ["out"] buildWorld).2).2) = []
    ∧ (cleanup workEnv ["out"] (cleanup workEnv ["out"] buildWorld).2).2.fs
        = (cleanup workEnv ["out"] buildWorld).2.fs
    ∧ workEnv.stat buildState "out/mod1/data.zip" = some (Node.file [1, 2, 3])
    ∧ workEnv.stat (cleanup workEnv ["out"] buildWorld).2.fs "out/mod1/data.zip" = none
    ∧ workEnv.stat (cleanup workEnv ["out"] buildWorld).2.fs "dist" = some Node.dir
    ∧ errorLogs (callsSince buildWorld (cleanup workEnv ["nowhere"] buildWorld).2) = []
    ∧ (cleanup workEnv ["nowhere"] buildWorld).2.fs = buildState := by
  have h := cleanup_idempotent workEnv (unixEnv_removeAllContract "/work" cfConfig)
    "out" [] buildWorld
  have h1 := h.2 (by decide)
  have hn := (cleanup_idempotent workEnv (unixEnv_removeAllContract "/work" cfConfig)
    "nowhere" [] buildWorld).1
    (unixStat_none_of_outside "/work" "nowhere" buildState (by decide))
  refine ⟨by decide, h1.1, h1.2.1, by decide, h1.2.2.1 "out/mod1/data.zip" (by decide), ?_,
    hn.1, hn.2⟩
  rw [h1.2.2.2 "dist" (by decide)]
  decide

/-- C1: at the module name `../dist`, `packModule("out", "build/out1", "../dist")` creates
the folder `filepath.Join("out", "../dist")`, which is `dist`, a folder beside the
build-artifacts directory `out` and not an entry of it, writes the archive to
`dist/data.zip`, and returns nil. -/
theorem packModule_name_escapes :
    mkdirCalls (callsSince buildWorld
        (packModule workEnv "out" "build/out1" "../dist" buildWorld).2) = ["dist"]
    ∧ archiveCalls (callsSince buildWorld
        (packModule workEnv "out" "build/out1" "../dist" buildWorld).2)
      = [("/work/build/out1", "dist/data.zip")]
    ∧ (packModule workEnv "out" "build/out1" "../dist" buildWorld).1 = none
    ∧ resolve "/work" "out" = ["work", "out"]
    ∧ resolve "/work" "dist" = ["work", "dist"]
    ∧ workEnv.within "out" "dist" = false
    ∧ workEnv.stat (packModule workEnv "out" "build/out1" "../dist" buildWorld).2.fs
        "dist/data.zip" = some (Node.file [1, 2, 3]) :=
  ⟨by decide, by decide, by decide, by decide, by decide, by decide, by decide⟩

/-- C2: at the module name `../stray`, with the build output missing,
`packModule("out", "build/out3", "../stray")` creates the folder `stray` beside `out`, the
archiving fails, `os.RemoveAll("out")` is the one removal and succeeds (the error returned
is the archiving error alone), the folders of the modules packaged before are gone, and
the folder `stray`, which was not there before, is left. -/
theorem packModule_rollback_misses_folder :
    workEnv.stat buildState "stray" = none
    ∧ mkdirCalls (callsSince buildWorld
        (packModule workEnv "out" "build/out3" "../stray" buildWorld).2) = ["stray"]
    ∧ removeCalls (callsSince buildWorld
        (packModule workEnv "out" "build/out3" "../stray" buildWorld).2) = ["out"]
    ∧ (packModule workEnv "out" "build/out3" "../stray" buildWorld).1
      = some (errorsNew (zipErrorMsg "../stray" noOutput3))
    ∧ workEnv.stat (packModule workEnv "out" "build/out3" "../stray" buildWorld).2.fs
        "out/mod1" = none
    ∧ workEnv.stat (packModule workEnv "out" "build/out3" "../stray" buildWorld).2.fs
        "out/mod2" = none
    ∧ workEnv.stat (packModule workEnv "out" "build/out3" "../stray" buildWorld).2.fs
        (workEnv.join ["out", "../stray"]) = some Node.dir :=
  ⟨by decide, by decide, by decide, by decide, by decide, by decide, by decide⟩

/-- The counterexample of C6: the descriptor has the id `../x`, `mta.yaml` is read and
parsed, and `generateMtar` on `out` and `dist` writes the archive `x.mtar` beside `dist`,
not into it, and returns nil. -/
theorem generateMtar_id_escapes :
    parseDescriptor (bytesOf "id: ../x\n") = Except.ok ⟨"../x", [], []⟩
    ∧ (generateMtar workEnv "" ["out", "dist"] ⟨descriptorState "id: ../x\n", []⟩).1
      = Outcome.ret none
    ∧ archiveCalls (generateMtar workEnv "" ["out", "dist"]
        ⟨descriptorState "id: ../x\n", []⟩).2.trace = [("out", "x.mtar")]
    ∧ workEnv.within "dist" "x.mtar" = false
    ∧ workEnv.stat (generateMtar workEnv "" ["out", "dist"]
        ⟨descriptorState "id: ../x\n", []⟩).2.fs "x.mtar"
      = some (Node.file [1, 2, 3, 4, 5])
    ∧ workEnv.stat (generateMtar workEnv "" ["out", "dist"]
        ⟨descriptorState "id: ../x\n", []⟩).2.fs "dist/x.mtar" = none :=
  ⟨rfl, by decide, by decide, by decide, by decide, by decide⟩

/-- The witness of `generateMtar_archives_once`: the descriptor of `myapp`, the arguments
`out` and `dist`; the archive is `myapp.mtar` in `dist`. -/
theorem generateMtar_archives_once_witness :
    archiveCalls (callsSince buildWorld (generateMtar workEnv "" ["out", "dist"] buildWorld).2)
      = [("out", "dist/myapp.mtar")]
    ∧ resolve "/work" "dist/myapp.mtar" = resolve "/work" "dist" ++ ["myapp.mtar"]
    ∧ (generateMtar workEnv "" ["out", "dist"] buildWorld).1 = Outcome.ret none
    ∧ workEnv.stat (generateMtar workEnv "" ["out", "dist"] buildWorld).2.fs "dist/myapp.mtar"
      = some (Node.file [1, 2, 3, 4, 5])
    ∧ removeCalls (callsSince buildWorld
        (generateMtar workEnv "" ["out", "dist"] buildWorld).2) = [] := by
  have h := generateMtar_archives_once workEnv rfl "" "out" "dist" [] buildWorld
    (bytesOf "id: myapp\nmodules:\n") ⟨"myapp", [], []⟩ rfl rfl (by decide)
  refine ⟨h.1, (h.2.1 "/work" rfl).2, h.2.2.1, ?_, h.2.2.2.2⟩
  rw [h.2.2.2.1]
  decide

/-- The counterexample of C8: with a callback whose parser fails with an `errors.New` error
of the same text, `processMta` returns the same error when `mta.yaml` is missing and when
`mta.yaml` is read and rejected. -/
theorem processMta_same_error :
    unixReadExtFile "/work" "" "mta.yaml" ⟨buildEntries, []⟩
      = Except.error ⟨ErrKind.notFound, "open mta.yaml: no such file or directory"⟩
    ∧ unixReadExtFile "/work" "" "mta.yaml" buildState
      = Except.ok (bytesOf "id: myapp\nmodules:\n")
    ∧ (processMta workEnv "MTAR generation" "" ["out", "dist"] rejectingProcess
        ⟨⟨buildEntries, []⟩, []⟩).1
      = Outcome.ret (some (errorsNew
          "MTA file not found: open mta.yaml: no such file or directory"))
    ∧ (processMta workEnv "MTAR generation" "" ["out", "dist"] rejectingProcess
        ⟨⟨buildEntries, []⟩, []⟩).1
      = (processMta workEnv "MTAR generation" "" ["out", "dist"] rejectingProcess
          buildWorld).1 :=
  ⟨rfl, rfl, by decide, by decide⟩

/-- The witness of `missing_and_malformed_descriptor`: a build without `mta.yaml`, and a
build whose `mta.yaml` holds a tab; the two errors differ, the parser's error being another
one. -/
theorem missing_and_malformed_descriptor_witness :
    (generateMtar workEnv "" ["out", "dist"] ⟨⟨buildEntries, []⟩, []⟩).1
      = Outcome.ret (some (errorsNew
          "MTA file not found: open mta.yaml: no such file or directory"))
    ∧ (generateMtar workEnv "" ["out", "dist"]
          ⟨descriptorState "id: myapp\n\tmodules:\n", []⟩).1
      = Outcome.ret (some ⟨ErrKind.malformedDescriptor,
          "yaml: found character that cannot start any token"⟩)
    ∧ (generateMtar workEnv "" ["out", "dist"] ⟨⟨buildEntries, []⟩, []⟩).1
      ≠ (generateMtar workEnv "" ["out", "dist"]
          ⟨descriptorState "id: myapp\n\tmodules:\n", []⟩).1 := by
  have h := missing_and_malformed_descriptor workEnv
    "" ["out", "dist"] ⟨⟨buildEntries, []⟩, []⟩
    ⟨descriptorState "id: myapp\n\tmodules:\n", []⟩
    ⟨ErrKind.notFound, "open mta.yaml: no such file or directory"⟩
    ⟨ErrKind.malformedDescriptor, "yaml: found character that cannot start any token"⟩
    (bytesOf "id: myapp\n\tmodules:\n") rfl rfl rfl
  exact ⟨h.2.1, h.2.2.2.1, fun heq => absurd (h.2.2.2.2.2.1.mp heq) (by decide)⟩

end MtaBuild
